import Mathlib

/-!
Verification development for the Refinery refinement-request pipeline.

Shallow embedding of the TypeScript sources:
* `src/utils/tokenCounter.ts` — token estimation, error taxonomy, classification, retry;
* `src/utils/cacheManager.ts` — LRU/TTL request cache and fingerprint hash;
* `src/llm/geminiClient.ts` — in-flight request map, streaming entry point;
* `src/llm/promptBuilder.ts` — prompt assembly;
* `src/utils/historyManager.ts` — history records;
* `src/features/chatParticipant.ts` — the chat handler orchestrating the pipeline.

JavaScript `Map` objects are modelled as association lists that keep insertion
order (the iteration order of a JS `Map`), numbers as `Nat` (and `ℚ` where the
source computes a percentage), and `Date.now()` as an explicit `now : Nat`
argument.  Each handler run is modelled at a single timestamp.
-/

namespace Refinery

-- Batteries marks the rational-number arithmetic irreducible; the concrete
-- pipeline evaluations below need it to reduce.
attribute [local semireducible] Rat.mul Rat.add Rat.sub Rat.inv

/-! ### Character and string helpers (JS regex classes, trim, join) -/

/-- ASCII part of the JS `\s` class (the source only ever meets ASCII here;
the Unicode space characters of `\s` are omitted from the model). -/
def isJsSpace (c : Char) : Bool :=
  c == ' ' || c == '\t' || c == '\n' || c == '\r' || c == '\x0b' || c == '\x0c'

/-- `String.prototype.trim`, on the character list. -/
def trimChars (cs : List Char) : List Char :=
  ((cs.dropWhile isJsSpace).reverse.dropWhile isJsSpace).reverse

def wordCountAux : List Char → Bool → Nat → Nat
  | [], _, acc => acc
  | c :: t, inWord, acc =>
    match isJsSpace c, inWord with
    | true, _ => wordCountAux t false acc
    | false, true => wordCountAux t true acc
    | false, false => wordCountAux t true (acc + 1)

/-- Number of maximal non-whitespace runs: `text.split(/\s+/).length` on a
trimmed, non-empty string. -/
def wordCount (cs : List Char) : Nat := wordCountAux cs false 0

/-- The punctuation class of `tokenCounter.ts`: `[.,!?;:'"()\[\]{}]`. -/
def isPunctChar (c : Char) : Bool :=
  c == '.' || c == ',' || c == '!' || c == '?' || c == ';' || c == ':' ||
  c == Char.ofNat 39 || c == '\"' || c == '(' || c == ')' ||
  c == '[' || c == ']' || c == '\x7b' || c == '\x7d'

/-- `Array.prototype.join(sep)`. -/
def jsJoin (sep : String) : List String → String
  | [] => ""
  | [s] => s
  | s :: rest => s ++ sep ++ jsJoin sep rest

/-- ASCII lowercasing, the model of `String.prototype.toLowerCase`. -/
def toLowerStr (s : String) : String := String.mk (s.data.map Char.toLower)

/-- Substring test backing `String.prototype.includes`. -/
def containsSub (hay pat : List Char) : Bool :=
  match hay with
  | [] => pat.isEmpty
  | _ :: t => pat.isPrefixOf hay || containsSub t pat

/-- `hay.includes(pat)`. -/
def strIncludes (hay pat : String) : Bool := containsSub hay.data pat.data

/-! ### `tokenCounter.ts`: token estimation -/

/-- `DEFAULT_TOKEN_LIMIT` from `tokenCounter.ts`. -/
def DEFAULT_TOKEN_LIMIT : Nat := 100000

/-- `estimateTokens`: `Math.ceil(words * 1.3 + punctuationCount * 0.5)`,
written over `Nat` as `⌈(13·words + 5·punct) / 10⌉`. -/
def estimateTokens (text : String) : Nat :=
  let trimmed := trimChars text.data
  if trimmed.isEmpty then 0
  else (13 * wordCount trimmed + 5 * text.data.countP isPunctChar + 9) / 10

/-- Decimal model of `(num/den).toFixed(1)` (round half up). -/
def toFixed1 (num den : Nat) : String :=
  let scaled := (num * 10 + den / 2) / den
  toString (scaled / 10) ++ "." ++ toString (scaled % 10)

/-- `formatTokenCount` from `tokenCounter.ts`. -/
def formatTokenCount (tokens : Nat) : String :=
  if tokens ≥ 1000000 then toFixed1 tokens 1000000 ++ "M"
  else if tokens ≥ 1000 then toFixed1 tokens 1000 ++ "k"
  else toString tokens

/-- `TokenValidationResult` from `tokenCounter.ts`; `usagePercent` is the one
genuinely fractional field, modelled in `ℚ`. -/
structure TokenValidationResult where
  isValid : Bool
  estimatedTokens : Nat
  maxTokens : Nat
  usagePercent : ℚ
  warning : Option String
  error : Option String
deriving DecidableEq, Repr

/-- `validateTokenCount(text, _model, warningThreshold)`.  The model argument
is unused by the source ("kept for API compatibility"). -/
def validateTokenCount (text : String) (_model : String) (warningThreshold : ℚ) :
    TokenValidationResult :=
  let estimatedTokens := estimateTokens text
  let maxTokens := DEFAULT_TOKEN_LIMIT
  let usagePercent : ℚ := (estimatedTokens : ℚ) / (maxTokens : ℚ) * 100
  if 100 ≤ usagePercent then
    { isValid := false, estimatedTokens := estimatedTokens, maxTokens := maxTokens
      usagePercent := usagePercent, warning := none
      error := some ("Prompt may be too long: ~" ++ formatTokenCount estimatedTokens ++ " tokens") }
  else if warningThreshold * 100 ≤ usagePercent then
    { isValid := true, estimatedTokens := estimatedTokens, maxTokens := maxTokens
      usagePercent := usagePercent
      warning := some ("Large prompt: ~" ++ formatTokenCount estimatedTokens ++ " tokens")
      error := none }
  else
    { isValid := true, estimatedTokens := estimatedTokens, maxTokens := maxTokens
      usagePercent := usagePercent, warning := none, error := none }

/-! ### `errors.ts`: taxonomy, `RefineryError`, `classifyError` -/

inductive ErrorType where
  | AUTH | RATE_LIMIT | NETWORK | TOKEN_OVERFLOW | INVALID_INPUT | API_ERROR | UNKNOWN
deriving DecidableEq, Repr

/-- `RefineryError`: message, type, retryable, suggestedAction, retryAfterMs. -/
structure RefineryError where
  message : String
  type : ErrorType
  retryable : Bool
  suggestedAction : String
  retryAfterMs : Option Nat
deriving DecidableEq, Repr

/-- A raw failure as seen by `classifyError`: either an error that is already a
`RefineryError`, or an arbitrary message string. -/
inductive RawError where
  | already (e : RefineryError)
  | raw (message : String)
deriving DecidableEq, Repr

def authKeywords : List String :=
  ["api key", "unauthorized", "401", "invalid key", "permission denied"]

def rateLimitKeywords : List String :=
  ["rate limit", "429", "quota", "too many requests"]

def networkKeywords : List String :=
  ["network", "timeout", "econnrefused", "enotfound", "fetch failed", "failed to fetch"]

def tokenKeywords : List String :=
  ["token", "context length", "too long", "maximum"]

def apiErrorKeywords : List String :=
  ["500", "502", "503", "internal server error", "service unavailable"]

def containsAny (lower : String) (keys : List String) : Bool :=
  keys.any (fun k => strIncludes lower k)

def digitsToNat (ds : List Char) : Nat :=
  ds.foldl (fun a c => 10 * a + (c.toNat - 48)) 0

/-- Which alternative of `second|minute|sec|min` matches at this position
(regex alternation tries the alternatives left to right); `true` means the
captured unit starts with `min`. -/
def hintUnitAt (cs : List Char) : Option Bool :=
  if List.isPrefixOf "second".data cs then some false
  else if List.isPrefixOf "minute".data cs then some true
  else if List.isPrefixOf "sec".data cs then some false
  else if List.isPrefixOf "min".data cs then some true
  else none

/-- Leftmost match of `/(\d+)\s*(second|minute|sec|min)/` : the value and
whether the unit is a minutes unit.  Greedy `\d+`/`\s*` need no backtracking
here because the units start with letters. -/
def findRetryHintAux : List Char → Option (Nat × Bool)
  | [] => none
  | c :: t =>
    if c.isDigit then
      let ds := (c :: t).takeWhile Char.isDigit
      let rest := ((c :: t).dropWhile Char.isDigit).dropWhile isJsSpace
      match hintUnitAt rest with
      | some isMin => some (digitsToNat ds, isMin)
      | none => findRetryHintAux t
    else findRetryHintAux t

def findRetryHint (s : String) : Option (Nat × Bool) := findRetryHintAux s.data

/-- The string branch of `classifyError` (everything after the
`instanceof RefineryError` pass-through). -/
def classifyMessage (errorMessage : String) : RefineryError :=
  let lowerMessage := toLowerStr errorMessage
  if containsAny lowerMessage authKeywords then
    ⟨errorMessage, .AUTH, false,
      "Update your API key using the \"Refinery: Set API Key\" command.", none⟩
  else if containsAny lowerMessage rateLimitKeywords then
    let retryAfterMs : Nat :=
      match findRetryHint lowerMessage with
      | some (v, isMin) => if isMin then v * 60 * 1000 else v * 1000
      | none => 60 * 1000
    ⟨errorMessage, .RATE_LIMIT, true, "Wait a moment before trying again.", some retryAfterMs⟩
  else if containsAny lowerMessage networkKeywords then
    ⟨errorMessage, .NETWORK, true, "Check your internet connection and try again.", none⟩
  else if containsAny lowerMessage tokenKeywords then
    ⟨errorMessage, .TOKEN_OVERFLOW, false, "Shorten your prompt and try again.", none⟩
  else if containsAny lowerMessage apiErrorKeywords then
    ⟨errorMessage, .API_ERROR, true, "The API is temporarily unavailable. Please try again.", none⟩
  else
    ⟨errorMessage, .UNKNOWN, false, "An unexpected error occurred.", none⟩

/-- `classifyError` from `errors.ts`. -/
def classifyError : RawError → RefineryError
  | .already e => e
  | .raw msg => classifyMessage msg

/-! ### `withRetry`: the retry executor.

The operation is modelled as a function from the 0-indexed call number to its
outcome, so the trace of a run (number of calls, backoff delays slept, and
`onRetry` invocations with their `(attempt, classification, delayMs)`
arguments) can be computed. -/

instance {ε α : Type} [DecidableEq ε] [DecidableEq α] : DecidableEq (Except ε α) := fun x y =>
  match x, y with
  | .ok a, .ok b =>
    if h : a = b then isTrue (by rw [h]) else isFalse (fun hh => h (Except.ok.inj hh))
  | .error a, .error b =>
    if h : a = b then isTrue (by rw [h]) else isFalse (fun hh => h (Except.error.inj hh))
  | .ok _, .error _ => isFalse (fun hh => Except.noConfusion hh)
  | .error _, .ok _ => isFalse (fun hh => Except.noConfusion hh)

structure RetryResult (α : Type) where
  result : Except RefineryError α
  calls : Nat
  delays : List Nat
  onRetryEvents : List (Nat × RefineryError × Nat)
deriving DecidableEq, Repr

/-- One iteration state of the `for (attempt = 1; attempt <= maxRetries; ...)`
loop: `attempt` is the 1-indexed attempt counter, the second argument the
number of loop iterations still permitted (`maxRetries - attempt + 1`). -/
def withRetryFrom {α : Type} (fn : Nat → Except RawError α) (initialDelayMs : Nat) :
    Nat → Nat → RetryResult α
  | _attempt, 0 =>
    -- loop exhausted without entering: `throw lastError || new RefineryError('Unknown error', UNKNOWN)`
    ⟨.error ⟨"Unknown error", .UNKNOWN, false, "", none⟩, 0, [], []⟩
  | attempt, left + 1 =>
    match fn (attempt - 1) with
    | .ok v => ⟨.ok v, 1, [], []⟩
    | .error e =>
      let lastError := classifyError e
      if !lastError.retryable || left == 0 then
        ⟨.error lastError, 1, [], []⟩
      else
        let delayMs := initialDelayMs * 2 ^ (attempt - 1)
        let r := withRetryFrom fn initialDelayMs (attempt + 1) left
        ⟨r.result, r.calls + 1, delayMs :: r.delays, (attempt, lastError, delayMs) :: r.onRetryEvents⟩

/-- `withRetry(fn, maxRetries, initialDelayMs, onRetry)` from `errors.ts`. -/
def withRetry {α : Type} (fn : Nat → Except RawError α) (maxRetries initialDelayMs : Nat) :
    RetryResult α :=
  withRetryFrom fn initialDelayMs 1 maxRetries

/-! ### SHA-256 (the `crypto.createHash('sha256')` digest used by `cacheManager.ts`),
over `Nat` with explicit reduction mod `2^32`. -/

def mask32 (n : Nat) : Nat := n % 4294967296

def add32 (a b : Nat) : Nat := mask32 (a + b)

def rotr32 (n x : Nat) : Nat := mask32 ((x >>> n) ||| (x <<< (32 - n)))

def bigSigma0 (x : Nat) : Nat := rotr32 2 x ^^^ rotr32 13 x ^^^ rotr32 22 x

def bigSigma1 (x : Nat) : Nat := rotr32 6 x ^^^ rotr32 11 x ^^^ rotr32 25 x

def smallSigma0 (x : Nat) : Nat := rotr32 7 x ^^^ rotr32 18 x ^^^ (x >>> 3)

def smallSigma1 (x : Nat) : Nat := rotr32 17 x ^^^ rotr32 19 x ^^^ (x >>> 10)

def shaCh (x y z : Nat) : Nat := (x &&& y) ^^^ ((x ^^^ 4294967295) &&& z)

def shaMaj (x y z : Nat) : Nat := (x &&& y) ^^^ (x &&& z) ^^^ (y &&& z)

/-- The 64 SHA-256 round constants (the hex table of the standard, here in
decimal). -/
def sha256K : List Nat :=
  [1116352408, 1899447441, 3049323471, 3921009573, 961987163, 1508970993,
   2453635748, 2870763221, 3624381080, 310598401, 607225278, 1426881987,
   1925078388, 2162078206, 2614888103, 3248222580, 3835390401, 4022224774,
   264347078, 604807628, 770255983, 1249150122, 1555081692, 1996064986,
   2554220882, 2821834349, 2952996808, 3210313671, 3336571891, 3584528711,
   113926993, 338241895, 666307205, 773529912, 1294757372, 1396182291,
   1695183700, 1986661051, 2177026350, 2456956037, 2730485921, 2820302411,
   3259730800, 3345764771, 3516065817, 3600352804, 4094571909, 275423344,
   430227734, 506948616, 659060556, 883997877, 958139571, 1322822218,
   1537002063, 1747873779, 1955562222, 2024104815, 2227730452, 2361852424,
   2428436474, 2756734187, 3204031479, 3329325298]

/-- The initial SHA-256 state words, in decimal. -/
def sha256H0 : List Nat :=
  [1779033703, 3144134277, 1013904242, 2773480762,
   1359893119, 2600822924, 528734635, 1541459225]

/-- UTF-8 encoding of one character (Node's default encoding for `hash.update`). -/
def utf8Encode (c : Char) : List Nat :=
  let n := c.toNat
  if n < 0x80 then [n]
  else if n < 0x800 then [0xc0 ||| (n >>> 6), 0x80 ||| (n &&& 0x3f)]
  else if n < 0x10000 then
    [0xe0 ||| (n >>> 12), 0x80 ||| ((n >>> 6) &&& 0x3f), 0x80 ||| (n &&& 0x3f)]
  else
    [0xf0 ||| (n >>> 18), 0x80 ||| ((n >>> 12) &&& 0x3f),
     0x80 ||| ((n >>> 6) &&& 0x3f), 0x80 ||| (n &&& 0x3f)]

def strUtf8 (s : String) : List Nat := (s.data.map utf8Encode).flatten

/-- Big-endian byte representation of `v`, on `n` bytes. -/
def bytesBE (n v : Nat) : List Nat :=
  (List.range n).map (fun i => (v >>> (8 * (n - 1 - i))) % 256)

/-- SHA-256 message padding: `0x80`, zeros to 56 mod 64, 8-byte bit length. -/
def sha256Pad (msg : List Nat) : List Nat :=
  let k := (119 - msg.length % 64) % 64
  msg ++ 0x80 :: (List.replicate k 0 ++ bytesBE 8 (8 * msg.length))

/-- Group bytes into big-endian 32-bit words. -/
def toWords : List Nat → List Nat
  | b0 :: b1 :: b2 :: b3 :: t =>
    ((((b0 <<< 8) ||| b1) <<< 8 ||| b2) <<< 8 ||| b3) :: toWords t
  | _ => []

/-- Extend a 16-word block to the 64-word message schedule. -/
def extendScheduleStep (w : List Nat) : List Nat :=
  let i := w.length
  let s0 := smallSigma0 (w.getD (i - 15) 0)
  let s1 := smallSigma1 (w.getD (i - 2) 0)
  w ++ [add32 (add32 (add32 (w.getD (i - 16) 0) s0) (w.getD (i - 7) 0)) s1]

def extendSchedule (block : List Nat) : List Nat :=
  (List.range 48).foldl (fun w _ => extendScheduleStep w) block

def sha256Round (st : Nat × Nat × Nat × Nat × Nat × Nat × Nat × Nat) (kw : Nat × Nat) :
    Nat × Nat × Nat × Nat × Nat × Nat × Nat × Nat :=
  let (a, b, c, d, e, f, g, h) := st
  let t1 := add32 (add32 (add32 (add32 h (bigSigma1 e)) (shaCh e f g)) kw.1) kw.2
  let t2 := add32 (bigSigma0 a) (shaMaj a b c)
  (add32 t1 t2, a, b, c, add32 d t1, e, f, g)

def sha256Compress (hs : List Nat) (block : List Nat) : List Nat :=
  let w := extendSchedule block
  let a0 := hs.getD 0 0
  let b0 := hs.getD 1 0
  let c0 := hs.getD 2 0
  let d0 := hs.getD 3 0
  let e0 := hs.getD 4 0
  let f0 := hs.getD 5 0
  let g0 := hs.getD 6 0
  let h0 := hs.getD 7 0
  let r := (sha256K.zip w).foldl sha256Round (a0, b0, c0, d0, e0, f0, g0, h0)
  [add32 a0 r.1, add32 b0 r.2.1, add32 c0 r.2.2.1, add32 d0 r.2.2.2.1,
   add32 e0 r.2.2.2.2.1, add32 f0 r.2.2.2.2.2.1, add32 g0 r.2.2.2.2.2.2.1,
   add32 h0 r.2.2.2.2.2.2.2]

/-- Compress the given number of 64-byte blocks in sequence. -/
def sha256Chunks : Nat → List Nat → List Nat → List Nat
  | 0, hs, _ => hs
  | n + 1, hs, bytes =>
    sha256Chunks n (sha256Compress hs (toWords (bytes.take 64))) (bytes.drop 64)

/-- SHA-256 of a byte list, as eight 32-bit words (the padded message length is
always a multiple of 64). -/
def sha256 (msg : List Nat) : List Nat :=
  let padded := sha256Pad msg
  sha256Chunks (padded.length / 64) sha256H0 padded

def hexDigitChar (n : Nat) : Char :=
  if n < 10 then Char.ofNat (48 + n) else Char.ofNat (87 + n)

def wordHexChars (w : Nat) : List Char :=
  (List.range 8).map (fun i => hexDigitChar ((w >>> (4 * (7 - i))) % 16))

/-- `digest('hex')`: the 64 lowercase hex characters of the digest. -/
def sha256HexChars (msg : List Nat) : List Char := ((sha256 msg).map wordHexChars).flatten

/-! ### `cacheManager.ts`: the LRU/TTL request cache -/

/-- `CacheEntry` from `cacheManager.ts`. -/
structure CacheEntry where
  value : String
  timestamp : Nat
  model : String
  inputLength : Nat
deriving DecidableEq, Repr

/-- `CacheManager` state: the `Map` is an insertion-ordered association list. -/
structure CacheManager where
  cache : List (String × CacheEntry)
  maxSize : Nat
  ttl : Nat
  hits : Nat
  misses : Nat
deriving DecidableEq, Repr

/-- `Map.prototype.get`. -/
def mapGet {β : Type} (m : List (String × β)) (k : String) : Option β :=
  match m with
  | [] => none
  | (k', v) :: t => if k' = k then some v else mapGet t k

/-- `Map.prototype.set`: updates in place (keeping iteration order) or appends. -/
def mapSet {β : Type} (m : List (String × β)) (k : String) (v : β) : List (String × β) :=
  match m with
  | [] => [(k, v)]
  | (k', v') :: t => if k' = k then (k, v) :: t else (k', v') :: mapSet t k v

/-- `Map.prototype.delete`. -/
def mapDelete {β : Type} (m : List (String × β)) (k : String) : List (String × β) :=
  m.filter (fun p => decide (p.1 ≠ k))

/-- `Map.prototype.has`. -/
def mapHas {β : Type} (m : List (String × β)) (k : String) : Bool :=
  (mapGet m k).isSome

/-- `hash(userInput, model, projectContext)`: the pipe-joined data string. -/
def hashInput (userInput model projectContext : String) : String :=
  userInput ++ "|" ++ model ++ "|" ++ projectContext

/-- `hash`: sha256 hex digest of the data string, truncated to 16 characters. -/
def CacheManager.hash (userInput model projectContext : String) : String :=
  String.mk ((sha256HexChars (strUtf8 (hashInput userInput model projectContext))).take 16)

/-- `get(key)`: TTL check, expiry purge, LRU touch, hit/miss counters. -/
def CacheManager.get (st : CacheManager) (now : Nat) (key : String) :
    Option String × CacheManager :=
  match mapGet st.cache key with
  | some entry =>
    if now - entry.timestamp > st.ttl then
      (none, { st with cache := mapDelete st.cache key, misses := st.misses + 1 })
    else
      (some entry.value,
       { st with cache := mapSet st.cache key { entry with timestamp := now },
                 hits := st.hits + 1 })
  | none => (none, { st with misses := st.misses + 1 })

/-- The fold inside `evictOldest`: first key whose timestamp is strictly below
every earlier candidate (`entry.timestamp < oldestTime`, starting from
`Infinity`). -/
def findOldestAux : List (String × CacheEntry) → Option (String × Nat) → Option (String × Nat)
  | [], best => best
  | (k, e) :: t, none => findOldestAux t (some (k, e.timestamp))
  | (k, e) :: t, some (bk, bt) =>
    if e.timestamp < bt then findOldestAux t (some (k, e.timestamp))
    else findOldestAux t (some (bk, bt))

/-- `evictOldest`.  The source guards the deletion with `if (oldestKey)`, which
is false both for `null` (empty cache) and for the empty-string key. -/
def CacheManager.evictOldest (st : CacheManager) : CacheManager :=
  match findOldestAux st.cache none with
  | some (k, _) => if k = "" then st else { st with cache := mapDelete st.cache k }
  | none => st

/-- `set(key, value, model, inputLength)`: evict once when at capacity and the
key is new, then insert. -/
def CacheManager.set (st : CacheManager) (now : Nat) (key value model : String)
    (inputLength : Nat) : CacheManager :=
  let st' :=
    if st.maxSize ≤ st.cache.length ∧ mapHas st.cache key = false then st.evictOldest else st
  { st' with cache := mapSet st'.cache key ⟨value, now, model, inputLength⟩ }

/-- `has(key)`: same TTL semantics as `get`, without counters. -/
def CacheManager.hasKey (st : CacheManager) (now : Nat) (key : String) :
    Bool × CacheManager :=
  match mapGet st.cache key with
  | some entry =>
    if now - entry.timestamp > st.ttl then
      (false, { st with cache := mapDelete st.cache key })
    else (true, st)
  | none => (false, st)

/-- `prune()`: drop every expired entry, returning the count removed. -/
def CacheManager.prune (st : CacheManager) (now : Nat) : Nat × CacheManager :=
  let kept := st.cache.filter (fun p => decide (¬ now - p.2.timestamp > st.ttl))
  (st.cache.length - kept.length, { st with cache := kept })

/-- `clear()`. -/
def CacheManager.clear (st : CacheManager) : CacheManager :=
  { st with cache := [], hits := 0, misses := 0 }

/-- The eviction loop of `updateConfig`, fuelled by the current size.  (If
`evictOldest` cannot make progress — only possible with an empty-string key —
the JS `while` loop would spin forever; the fuel makes the model total.) -/
def shrinkLoop : Nat → CacheManager → CacheManager
  | 0, st => st
  | fuel + 1, st =>
    if st.maxSize < st.cache.length then shrinkLoop fuel st.evictOldest else st

/-- `updateConfig()`: adopt the new `maxSize`/`ttl`, then evict while oversized. -/
def CacheManager.updateConfig (st : CacheManager) (newMaxSize newTtl : Nat) : CacheManager :=
  let st' := { st with maxSize := newMaxSize, ttl := newTtl }
  shrinkLoop st'.cache.length st'

/-! ### `promptBuilder.ts`, `modelDetector.ts`, `projectScanner.ts` types -/

/-- The `SYSTEM_PROMPT` template literal of `promptBuilder.ts`, verbatim. -/
def SYSTEM_PROMPT : String :=
  "# Role\nYou are a prompt clarifier. Your job is to transform vague user requests into clear, specific prompts that describe WHAT the user wants — not HOW to implement it.\n\n# Goal\nHelp users articulate their intent clearly so AI coding agents understand exactly what outcome is needed. Let the AI agent decide the technical approach.\n\n# Rules\n1. Output ONLY the improved prompt - no explanations, no meta-commentary\n2. Focus on WHAT the user wants to achieve, not implementation details\n3. Clarify ambiguous terms and add missing context\n4. Do NOT prescribe specific code patterns, libraries, or technical solutions\n5. Do NOT include pixel values, specific CSS properties, or implementation code\n6. Keep it outcome-focused, not implementation-focused\n\n# Good vs Bad Examples\n\nBAD (too technical):\n\"Add a header with 16px padding, flex display, justify-between, border-radius 8px, box-shadow 0 2px 4px rgba(0,0,0,0.1)\"\n\nGOOD (outcome-focused):\n\"Add a header that looks clean and modern with the logo on the left and navigation on the right. It should have subtle depth and feel polished.\"\n\nBAD (prescribing implementation):\n\"Use useState for form state, add Zod validation schema, implement onBlur validation\"\n\nGOOD (describing what's needed):\n\"Make the form validate user input and show helpful error messages. It should feel responsive and prevent invalid submissions.\"\n\n# What to Clarify\n- What is the desired end result?\n- What should it look/feel/behave like?\n- What problem is being solved?\n- What are the constraints or requirements?\n\n# What NOT to Include\n- Specific CSS values (padding, margin, colors as hex)\n- Code patterns or architecture decisions\n- Library or framework choices\n- Step-by-step implementation instructions\n- Technical jargon the AI can figure out\n\n# Vibe-to-Outcome Mappings\nExpand vague terms to describe outcomes:\n- \"premium\" → Feels high-end, polished, with subtle details and smooth interactions\n- \"modern\" → Clean, uncluttered, with good use of whitespace and typography\n- \"playful\" → Fun and engaging, with personality and delightful interactions\n- \"minimal\" → Simple and focused, nothing unnecessary\n- \"professional\" → Trustworthy, organized, easy to navigate\n- \"aesthetic\" → Visually harmonious, balanced, pleasing to look at\n\n# Output Format\nWrite a clear, natural description of what the user wants. No bullet points, no numbered lists unless the user's request has multiple distinct parts. Just describe the desired outcome clearly."

/-- `TargetModel` from `modelDetector.ts`. -/
structure TargetModel where
  name : String
deriving DecidableEq, Repr

/-- `ProjectContext` from `projectScanner.ts` (`null` fields as `Option`). -/
structure ProjectContext where
  framework : Option String
  styling : Option String
  animation : Option String
  uiLibrary : Option String
  language : String
  constraints : List String
deriving DecidableEq, Repr

/-- `FileContext` from `fileUtils.ts`. -/
structure FileContext where
  relativePath : String
  language : String
  content : String
  cursorLine : Nat
  truncated : Bool
deriving DecidableEq, Repr

def contextKeywords : List String :=
  ["this", "current", "my", "the file", "this file",
   "this component", "this function", "this code",
   "here", "above", "below", "refactor",
   "improve this", "fix this", "update this"]

/-- `shouldIncludeFileContext` from `promptBuilder.ts`. -/
def shouldIncludeFileContext (userInput : String) : Bool :=
  contextKeywords.any (fun k => strIncludes (toLowerStr userInput) k)

/-- `buildPrompt(userInput, targetModel, projectContext?, fileContext?)`.
JS truthiness: the `projectContext.framework` guard is false for the empty
string as well as for `null`. -/
def buildPrompt (userInput : String) (targetModel : Option TargetModel)
    (projectContext : Option ProjectContext) (fileContext : Option FileContext) : String :=
  let parts : List String := [SYSTEM_PROMPT]
  let parts := parts ++
    (match targetModel with
     | some tm =>
       ["\n---\n", "# Target AI: " ++ tm.name,
        "The user will send this prompt to this AI. Keep the refined prompt clear and outcome-focused."]
     | none => [])
  let parts := parts ++
    (match projectContext with
     | some pc =>
       match pc.framework with
       | some fw =>
         if fw = "" then []
         else
           ["\n---\n", "# Context", "The user is working in a " ++ fw ++ " project.",
            "Do not prescribe technical solutions — the AI agent knows the tech stack."]
       | none => []
     | none => [])
  let parts := parts ++
    (match fileContext with
     | some fc =>
       if shouldIncludeFileContext userInput then
         ["\n---\n", "# Current File: " ++ fc.relativePath,
          "The user is referring to this file. Help clarify what they want to change, not how."]
       else []
     | none => [])
  let parts := parts ++
    ["\n---\n",
     "# User's Request\n\"" ++ userInput ++ "\"\n",
     "# Your Task\nRewrite this as a clear, outcome-focused prompt. Describe WHAT they want, not HOW to build it."]
  jsJoin "\n" parts

/-! ### `historyManager.ts` -/

/-- `HistoryEntry` from `historyManager.ts` (the random `id` string is not
modelled; nothing reads it). -/
structure HistoryEntry where
  timestamp : Nat
  originalPrompt : String
  refinedPrompt : String
  model : String
  framework : Option String
deriving DecidableEq, Repr

/-- `HistoryManager.add`: `unshift` then cap at `maxHistory = 50`. -/
def historyAdd (history : List HistoryEntry) (e : HistoryEntry) : List HistoryEntry :=
  (e :: history).take 50

/-! ### `geminiClient.ts`: the in-flight request map.

Promises are modelled as opaque numeric identifiers; what matters to the
claims is which keys are present.  These three helpers are exported by the
source but — see `chatPhase1`/`chatPhase2` below, which embed the whole
handler — never invoked by it. -/

/-- `getInFlightRequest(key)`. -/
def getInFlightRequest (inFlightRequests : List (String × Nat)) (key : String) : Option Nat :=
  mapGet inFlightRequests key

/-- `setInFlightRequest(key, promise)`. -/
def setInFlightRequest (inFlightRequests : List (String × Nat)) (key : String) (promise : Nat) :
    List (String × Nat) :=
  mapSet inFlightRequests key promise

/-- `clearInFlightRequest(key)`. -/
def clearInFlightRequest (inFlightRequests : List (String × Nat)) (key : String) :
    List (String × Nat) :=
  mapDelete inFlightRequests key

/-- `streamFromGemini` yields `chunk.text()` for each chunk, skipping falsy
(empty) texts.  The chunks the service would produce are supplied by the
environment; invoking this function is what counts as one external call. -/
def streamFromGemini (chunks : List String) : List String :=
  chunks.filter (fun s => decide (s ≠ ""))

/-! ### `chatParticipant.ts`: the chat handler -/

/-- `JSON.stringify` string escaping (the subset relevant to framework names). -/
def jsonEscapeChar (c : Char) : List Char :=
  if c = '\"' then ['\\', '\"']
  else if c = '\\' then ['\\', '\\']
  else if c = '\n' then ['\\', 'n']
  else if c = '\r' then ['\\', 'r']
  else if c = '\t' then ['\\', 't']
  else [c]

def jsonStr (s : String) : String :=
  String.mk ('\"' :: (s.data.map jsonEscapeChar).flatten ++ ['\"'])

/-- `JSON.stringify({ project: projectContext?.framework })` — the
`contextHash` fed into the cache fingerprint. -/
def contextHashOf (framework : Option String) : String :=
  match framework with
  | none => "\x7b\"project\":null\x7d"
  | some f => "\x7b\"project\":" ++ jsonStr f ++ "\x7d"

def matchLit (lit cs : List Char) : Option (List Char) :=
  if lit.isPrefixOf cs then some (cs.drop lit.length) else none

/-- Remainder after `WARNING_PATTERN`
(`/^⚠️\s*\*\*Your prompt is vague\.\*\*[^\n]*\n+/`), when it matches. -/
def warningPatternRest (cs : List Char) : Option (List Char) :=
  match matchLit [Char.ofNat 0x26a0, Char.ofNat 0xfe0f] cs with
  | none => none
  | some s0 =>
    let s1 := s0.dropWhile isJsSpace
    match matchLit "**Your prompt is vague.**".data s1 with
    | none => none
    | some s2 =>
      let s3 := s2.dropWhile (fun c => decide (c ≠ '\n'))
      match s3 with
      | '\n' :: _ => some (s3.dropWhile (fun c => decide (c = '\n')))
      | _ => none

/-- `separateWarningFromPrompt` from `chatParticipant.ts`. -/
def separateWarningFromPrompt (fullText : String) : Option String × String :=
  match warningPatternRest fullText.data with
  | some rest =>
    let matchedLen := fullText.data.length - rest.length
    (some (String.mk (trimChars (fullText.data.take matchedLen))),
     String.mk (trimChars rest))
  | none => (none, fullText)

/-- The mutable session state the handler touches: the cache singleton, the
history singleton, and the (never consulted) in-flight request map. -/
structure World where
  cache : CacheManager
  history : List HistoryEntry
  inFlight : List (String × Nat)
deriving DecidableEq, Repr

/-- One invocation's environment: the request, the collaborators' replies, and
the cancellation token's behaviour.  `cancelAfter = some n` means
`token.isCancellationRequested` first reads true at the check before the
`n`-th (0-based) streamed chunk is processed; `cancelAtStart` means it is
already true at the check after context gathering. -/
structure ChatRequestEnv where
  userInput : String
  command : Option String
  apiKey : Option String
  framework : Option String
  fileCtx : Option FileContext
  model : String
  chunks : List String
  cancelAtStart : Bool
  cancelAfter : Option Nat
deriving DecidableEq, Repr

inductive ChatOutcome where
  | helpShown | templatesShown | historyShown | welcomeShown | setupRequired
  | tokenOverflow
  | cancelledBeforeRequest
  | cachedResult
  | completed (cancelledMidStream : Bool)
deriving DecidableEq, Repr

structure ChatResult where
  world : World
  outcome : ChatOutcome
  serviceCalls : Nat
  emitted : List String
deriving DecidableEq, Repr

/-- `chatHandler` up to its first suspension inside the streaming call: early
returns, the cancellation check after context gathering, token validation and
the cache consultation.  Returns either a finished outcome or the cache key of
a pending miss.  Markdown/telemetry emission has no bearing on the state and
is not modelled. -/
def chatPhase1 (env : ChatRequestEnv) (now : Nat) (w : World) :
    World × (ChatOutcome ⊕ String) :=
  if env.command = some "help" then (w, .inl .helpShown)
  else if env.command = some "templates" then (w, .inl .templatesShown)
  else if env.command = some "history" then (w, .inl .historyShown)
  else if (trimChars env.userInput.data).isEmpty then (w, .inl .welcomeShown)
  else
    match env.apiKey with
    | none => (w, .inl .setupRequired)
    | some _ =>
      -- getProjectContext / getActiveFileContext gather env.framework / env.fileCtx
      if env.cancelAtStart then (w, .inl .cancelledBeforeRequest)
      else
        let fullPrompt := buildPrompt env.userInput none none none
        let tokenValidation := validateTokenCount fullPrompt env.model (4 / 5 : ℚ)
        if tokenValidation.isValid = false then (w, .inl .tokenOverflow)
        else
          let contextHash := contextHashOf env.framework
          let cacheKey := CacheManager.hash env.userInput env.model contextHash
          match CacheManager.get w.cache now cacheKey with
          | (some _, cache') => ({ w with cache := cache' }, .inl .cachedResult)
          | (none, cache') => ({ w with cache := cache' }, .inr cacheKey)

/-- The rest of `chatHandler` after a cache miss: drive the stream (one
external call), accumulate chunks until the cancellation token reads true,
then — unconditionally — cache any non-empty accumulated text and append a
history record.  `userInput.length` is the JS string length (code units);
`String.length` agrees for the inputs modelled here. -/
def chatPhase2 (env : ChatRequestEnv) (now : Nat) (cacheKey : String) (w : World) :
    ChatResult :=
  let streamed := streamFromGemini env.chunks
  let delivered :=
    match env.cancelAfter with
    | some n => streamed.take n
    | none => streamed
  let wasCancelled :=
    match env.cancelAfter with
    | some n => decide (n < streamed.length)
    | none => false
  let refinedPrompt := String.join delivered
  let cache' :=
    if (trimChars refinedPrompt.data).isEmpty then w.cache
    else
      CacheManager.set w.cache now cacheKey (String.mk (trimChars refinedPrompt.data))
        env.model env.userInput.length
  let promptContent := (separateWarningFromPrompt refinedPrompt).2
  let frameworkRecorded :=
    match env.framework with
    | some f => if f = "" then none else some f  -- `|| undefined` is hit by '' too
    | none => none
  let history' :=
    historyAdd w.history ⟨now, env.userInput, promptContent, env.model, frameworkRecorded⟩
  { world := { cache := cache', history := history', inFlight := w.inFlight }
    outcome := .completed wasCancelled
    serviceCalls := 1
    emitted := delivered }

/-- `chatHandler(request, context, stream, token)` as a state transformer. -/
def chatHandler (env : ChatRequestEnv) (now : Nat) (w : World) : ChatResult :=
  match chatPhase1 env now w with
  | (w', .inl outcome) => { world := w', outcome := outcome, serviceCalls := 0, emitted := [] }
  | (w', .inr cacheKey) => chatPhase2 env now cacheKey w'

/-- Two invocations issued back to back, the second starting before the first
resolves: in the cooperative scheduling model the second handler runs its
synchronous part (through the cache consultation) while the first is suspended
in the streaming call, then each stream completes in turn. -/
def runTwoBackToBack (envA envB : ChatRequestEnv) (nowA nowB : Nat) (w : World) :
    ChatResult × ChatResult :=
  match chatPhase1 envA nowA w with
  | (w1, .inl outcomeA) =>
    ({ world := w1, outcome := outcomeA, serviceCalls := 0, emitted := [] },
     chatHandler envB nowB w1)
  | (w1, .inr keyA) =>
    match chatPhase1 envB nowB w1 with
    | (w2, .inl outcomeB) =>
      (chatPhase2 envA nowA keyA w2,
       { world := w2, outcome := outcomeB, serviceCalls := 0, emitted := [] })
    | (w2, .inr keyB) =>
      let resultA := chatPhase2 envA nowA keyA w2
      let resultB := chatPhase2 envB nowB keyB resultA.world
      (resultA, resultB)


/-! ### Operation language over the cache (for the capacity invariant) -/

/-- One externally invocable cache operation. -/
inductive CacheOp where
  | get (now : Nat) (key : String)
  | set (now : Nat) (key value model : String) (inputLength : Nat)
  | hasKey (now : Nat) (key : String)
  | prune (now : Nat)
  | clear
  | updateConfig (newMaxSize newTtl : Nat)
deriving DecidableEq, Repr

def applyCacheOp (st : CacheManager) : CacheOp → CacheManager
  | .get now key => (st.get now key).2
  | .set now key value model len => st.set now key value model len
  | .hasKey now key => (st.hasKey now key).2
  | .prune now => (st.prune now).2
  | .clear => st.clear
  | .updateConfig mx t => st.updateConfig mx t

def runCacheOps (st : CacheManager) (ops : List CacheOp) : CacheManager :=
  ops.foldl applyCacheOp st

/-- Benign operations: non-empty keys on insertion and reconfiguration to a
positive capacity (the counterexample to the unrestricted claim shows both
restrictions are needed). -/
def cacheOpOK : CacheOp → Bool
  | .set _ key _ _ _ => key ≠ ""
  | .updateConfig mx _ => 1 ≤ mx
  | _ => true

/-- The cache invariant: positive capacity, within capacity, no empty-string
key, no duplicate keys. -/
def GoodCache (st : CacheManager) : Prop :=
  1 ≤ st.maxSize ∧ st.cache.length ≤ st.maxSize ∧
  (∀ p ∈ st.cache, p.1 ≠ "") ∧ (st.cache.map Prod.fst).Nodup

/-- A collision of the truncated sha256 hex digest on two distinct data
strings: the only way two different pipe-joined triples can share a
fingerprint. -/
def truncatedShaCollision (a b : String) : Prop :=
  a ≠ b ∧
  String.mk ((sha256HexChars (strUtf8 a)).take 16) =
    String.mk ((sha256HexChars (strUtf8 b)).take 16)

/-! ### Concrete scenarios for the pipeline claims -/

/-- A fresh session: empty cache (default configuration), no history, no
in-flight entries. -/
def emptyWorld : World := ⟨⟨[], 50, 3600000, 0, 0⟩, [], []⟩

/-- A plain refinement request whose stream would deliver two fragments, with
the cancellation token first reading true before the second fragment is
processed. -/
def cancelEnv : ChatRequestEnv :=
  { userInput := "add dark mode", command := none, apiKey := some "AIzaSyTestKey"
    framework := none, fileCtx := none, model := "gemini-2.5-flash"
    chunks := ["Hello ", "world"], cancelAtStart := false, cancelAfter := some 1 }

/-- The same request without cancellation, streaming three fragments. -/
def dedupEnv : ChatRequestEnv :=
  { userInput := "add dark mode", command := none, apiKey := some "AIzaSyTestKey"
    framework := none, fileCtx := none, model := "gemini-2.5-flash"
    chunks := ["Implement ", "a dark mode ", "toggle."], cancelAtStart := false
    cancelAfter := none }


/-- An input of 200001 punctuation characters: its assembled prompt estimates
far above the fixed token ceiling. -/
def overflowEnv : ChatRequestEnv :=
  { userInput := String.mk (List.replicate 200001 '.'), command := none
    apiKey := some "AIzaSyTestKey", framework := none, fileCtx := none
    model := "gemini-2.5-flash", chunks := [], cancelAtStart := false
    cancelAfter := none }

/-! ## Theorems -/

/-! ### Retry executor (claims C5, C6, C10) -/

/-- `List.range (j+1)` mapped, as head plus shifted tail. -/
theorem range_map_shift {β : Type} (f : Nat → β) (j : Nat) :
    (List.range (j + 1)).map f = f 0 :: (List.range j).map (fun n => f (n + 1)) := by
  rw [List.range_succ_eq_map, List.map_cons, List.map_map]; rfl

/-- Trace of `withRetryFrom` when the operation fails `j` times with retryable
classifications starting at 1-indexed attempt `a + 1` and then succeeds. -/
theorem withRetryFrom_run {α : Type} (fn : Nat → Except RawError α) (e : Nat → RawError)
    (v : α) (d : Nat) :
    ∀ (j a l : Nat), j + 1 ≤ l →
      (∀ i, i < j → fn (a + i) = .error (e (a + i))) →
      (∀ i, i < j → (classifyError (e (a + i))).retryable = true) →
      fn (a + j) = .ok v →
      withRetryFrom fn d (a + 1) l =
        ⟨.ok v, j + 1,
         (List.range j).map (fun n => d * 2 ^ (a + n)),
         (List.range j).map (fun n => (a + n + 1, classifyError (e (a + n)), d * 2 ^ (a + n)))⟩ := by
  intro j
  induction j with
  | zero =>
    intro a l hl _hfail _hretry hok
    obtain ⟨l', rfl⟩ : ∃ l', l = l' + 1 := ⟨l - 1, by omega⟩
    rw [Nat.add_zero] at hok
    simp [withRetryFrom, Nat.add_sub_cancel, hok]
  | succ j ih =>
    intro a l hl hfail hretry hok
    obtain ⟨l', rfl⟩ : ∃ l', l = l' + 1 := ⟨l - 1, by omega⟩
    have hfa : fn a = .error (e a) := by simpa using hfail 0 (by omega)
    have hra : (classifyError (e a)).retryable = true := by simpa using hretry 0 (by omega)
    have hl' : l' ≠ 0 := by omega
    have hrec := ih (a + 1) l' (by omega)
      (fun i hi => by
        have := hfail (i + 1) (by omega)
        simpa [Nat.add_assoc, Nat.add_comm 1 i] using this)
      (fun i hi => by
        have := hretry (i + 1) (by omega)
        simpa [Nat.add_assoc, Nat.add_comm 1 i] using this)
      (by
        have : a + 1 + j = a + (j + 1) := by omega
        rw [this, hok])
    rw [withRetryFrom, Nat.add_sub_cancel, hfa]
    simp only [hra, Bool.not_true, Bool.false_or, beq_iff_eq, if_neg hl', hrec]
    have hdel : List.map (fun n => d * 2 ^ (a + n)) (List.range (j + 1)) =
        d * 2 ^ a :: List.map (fun n => d * 2 ^ (a + 1 + n)) (List.range j) := by
      rw [range_map_shift]
      refine congrArg₂ _ (by simp only [Nat.add_zero]) (List.map_congr_left fun n _ => ?_)
      rw [show a + (n + 1) = a + 1 + n from by omega]
    have hev : List.map (fun n => (a + n + 1, classifyError (e (a + n)), d * 2 ^ (a + n)))
          (List.range (j + 1)) =
        (a + 1, classifyError (e a), d * 2 ^ a) ::
          List.map (fun n => (a + 1 + n + 1, classifyError (e (a + 1 + n)), d * 2 ^ (a + 1 + n)))
            (List.range j) := by
      rw [range_map_shift]
      refine congrArg₂ _ (by simp only [Nat.add_zero]) (List.map_congr_left fun n _ => ?_)
      rw [show a + (n + 1) = a + 1 + n from by omega]
    rw [hdel, hev]


/-- Claim C5: an operation that fails with retryable classifications on its
first `k - 1` attempts and succeeds on attempt `k ≤ maxAttempts` makes
`execute` return the success; the backoff delay after failed attempt `n`
(1-indexed) is `initialDelayMs * 2^(n-1)`, and `onRetry` is invoked exactly
once per retried failure with `(attempt, classification, delayMs)`. -/
theorem withRetry_backoff_schedule {α : Type} (fn : Nat → Except RawError α)
    (e : Nat → RawError) (v : α) (k maxAttempts initialDelayMs : Nat)
    (hk1 : 1 ≤ k) (hkm : k ≤ maxAttempts)
    (hfail : ∀ i, i < k - 1 → fn i = .error (e i))
    (hretry : ∀ i, i < k - 1 → (classifyError (e i)).retryable = true)
    (hsucc : fn (k - 1) = .ok v) :
    withRetry fn maxAttempts initialDelayMs =
      ⟨.ok v, k,
       (List.range (k - 1)).map (fun n => initialDelayMs * 2 ^ n),
       (List.range (k - 1)).map
         (fun n => (n + 1, classifyError (e n), initialDelayMs * 2 ^ n))⟩ := by
  obtain ⟨j, rfl⟩ : ∃ j, k = j + 1 := ⟨k - 1, by omega⟩
  have h := withRetryFrom_run fn e v initialDelayMs j 0 maxAttempts (by omega)
    (fun i hi => by simpa using hfail i (by omega))
    (fun i hi => by simpa using hretry i (by omega))
    (by simpa using hsucc)
  simpa [withRetry] using h

/-- Witness for C5: `NETWORK` failures on the first 2 of 3 attempts with
`initialDelayMs = 10` give success, delays `[10, 20]` and exactly two
`onRetry` invocations. -/
theorem withRetry_backoff_schedule_witness :
    withRetry
        (fun i => if i < 2 then .error (.raw "network timeout")
                  else (.ok "done" : Except RawError String)) 3 10 =
      ⟨.ok "done", 3, [10, 20],
       [(1, classifyMessage "network timeout", 10),
        (2, classifyMessage "network timeout", 20)]⟩ ∧
    (classifyError (.raw "network timeout")).type = .NETWORK := by
  constructor
  · have h := withRetry_backoff_schedule
      (fun i => if i < 2 then .error (.raw "network timeout")
                else (.ok "done" : Except RawError String))
      (fun _ => .raw "network timeout") "done" 3 3 10 (by omega) (by omega)
      (fun i hi => by simp only [if_pos (show i < 2 by omega)])
      (fun i hi => by
        show (classifyError (RawError.raw "network timeout")).retryable = true
        decide)
      (by decide)
    rw [h]
    decide
  · decide

/-- Claim C6: a failure whose classification is not retryable (such as AUTH)
is propagated after exactly one attempt, with no backoff delay and no
`onRetry` invocation, even when `maxAttempts > 1`. -/
theorem withRetry_nonretryable_single_attempt {α : Type} (fn : Nat → Except RawError α)
    (e : RawError) (maxRetries initialDelayMs : Nat)
    (hmax : 1 ≤ maxRetries) (hfn : fn 0 = .error e)
    (hnr : (classifyError e).retryable = false) :
    withRetry fn maxRetries initialDelayMs = ⟨.error (classifyError e), 1, [], []⟩ := by
  obtain ⟨l, rfl⟩ : ∃ l, maxRetries = l + 1 := ⟨maxRetries - 1, by omega⟩
  rw [withRetry, withRetryFrom]
  simp [hfn, hnr]

/-- Witness for C6: an `AUTH`-classified failure with `maxAttempts = 3` stops
after one attempt with no retries. -/
theorem withRetry_nonretryable_single_attempt_witness :
    withRetry (fun _ => (.error (.raw "401 unauthorized") : Except RawError String)) 3 500 =
      ⟨.error (classifyMessage "401 unauthorized"), 1, [], []⟩ ∧
    (classifyError (.raw "401 unauthorized")).type = .AUTH ∧
    (classifyError (.raw "401 unauthorized")).retryable = false := by
  refine ⟨?_, by decide, by decide⟩
  exact withRetry_nonretryable_single_attempt _ (.raw "401 unauthorized") 3 500
    (by omega) rfl (by decide)

/-- Claim C10: a retry executor call with `maxRetries ≤ 0` (here `0`; a
negative JS argument skips the loop identically) never invokes the operation
and fails with the `UNKNOWN`, non-retryable classification whose message is
`Unknown error`. -/
theorem withRetry_zero_attempts {α : Type} (fn : Nat → Except RawError α)
    (initialDelayMs : Nat) :
    withRetry fn 0 initialDelayMs =
      ⟨.error ⟨"Unknown error", .UNKNOWN, false, "", none⟩, 0, [], []⟩ := rfl


/-! ### Error classifier (claim C7) -/

/-- Claim C7: `classify` is deterministic and follows the fixed priority order
with first match winning: an already-classified error passes through
unchanged; otherwise the first matching case-insensitive keyword group among
AUTH, RATE_LIMIT, NETWORK, TOKEN_OVERFLOW, API_ERROR determines the result,
defaulting to UNKNOWN (not retryable); for RATE_LIMIT, a numeric
wait-N-seconds/minutes hint in the message is parsed and converted to
milliseconds as `retryAfterMs`, defaulting to 60000 ms when absent. -/
theorem classifyError_priority_order :
    (∀ e : RefineryError, classifyError (.already e) = e) ∧
    (∀ s : String,
      (containsAny (toLowerStr s) authKeywords = true →
        (classifyError (.raw s)).type = .AUTH ∧
        (classifyError (.raw s)).retryable = false) ∧
      (containsAny (toLowerStr s) authKeywords = false →
       containsAny (toLowerStr s) rateLimitKeywords = true →
        (classifyError (.raw s)).type = .RATE_LIMIT ∧
        (classifyError (.raw s)).retryable = true ∧
        (classifyError (.raw s)).retryAfterMs =
          some (match findRetryHint (toLowerStr s) with
                | some (v, isMin) => if isMin then v * 60 * 1000 else v * 1000
                | none => 60000)) ∧
      (containsAny (toLowerStr s) authKeywords = false →
       containsAny (toLowerStr s) rateLimitKeywords = false →
       containsAny (toLowerStr s) networkKeywords = true →
        (classifyError (.raw s)).type = .NETWORK ∧
        (classifyError (.raw s)).retryable = true) ∧
      (containsAny (toLowerStr s) authKeywords = false →
       containsAny (toLowerStr s) rateLimitKeywords = false →
       containsAny (toLowerStr s) networkKeywords = false →
       containsAny (toLowerStr s) tokenKeywords = true →
        (classifyError (.raw s)).type = .TOKEN_OVERFLOW ∧
        (classifyError (.raw s)).retryable = false) ∧
      (containsAny (toLowerStr s) authKeywords = false →
       containsAny (toLowerStr s) rateLimitKeywords = false →
       containsAny (toLowerStr s) networkKeywords = false →
       containsAny (toLowerStr s) tokenKeywords = false →
       containsAny (toLowerStr s) apiErrorKeywords = true →
        (classifyError (.raw s)).type = .API_ERROR ∧
        (classifyError (.raw s)).retryable = true) ∧
      (containsAny (toLowerStr s) authKeywords = false →
       containsAny (toLowerStr s) rateLimitKeywords = false →
       containsAny (toLowerStr s) networkKeywords = false →
       containsAny (toLowerStr s) tokenKeywords = false →
       containsAny (toLowerStr s) apiErrorKeywords = false →
        (classifyError (.raw s)).type = .UNKNOWN ∧
        (classifyError (.raw s)).retryable = false)) := by
  refine ⟨fun e => rfl, fun s => ⟨?_, ?_, ?_, ?_, ?_, ?_⟩⟩
  · intro h1
    simp [classifyError, classifyMessage, h1]
  · intro h1 h2
    refine ⟨?_, ?_, ?_⟩ <;> simp [classifyError, classifyMessage, h1, h2]
  · intro h1 h2 h3
    simp [classifyError, classifyMessage, h1, h2, h3]
  · intro h1 h2 h3 h4
    simp [classifyError, classifyMessage, h1, h2, h3, h4]
  · intro h1 h2 h3 h4 h5
    simp [classifyError, classifyMessage, h1, h2, h3, h4, h5]
  · intro h1 h2 h3 h4 h5
    simp [classifyError, classifyMessage, h1, h2, h3, h4, h5]

/-- Witness for C7 at one concrete message per priority class (including a
mixed-case AUTH message and a parsed two-minute rate-limit hint). -/
theorem classifyError_priority_order_witness :
    classifyError (.already ⟨"boom", .AUTH, false, "act", none⟩) =
      ⟨"boom", .AUTH, false, "act", none⟩ ∧
    (classifyError (.raw "Permission DENIED by server")).type = .AUTH ∧
    (classifyError (.raw "429 Too Many Requests, retry in 2 minutes")).retryAfterMs =
      some 120000 ∧
    (classifyError (.raw "fetch failed")).type = .NETWORK ∧
    (classifyError (.raw "input exceeds the maximum size")).type = .TOKEN_OVERFLOW ∧
    (classifyError (.raw "503 Service Unavailable")).type = .API_ERROR ∧
    (classifyError (.raw "weird")).type = .UNKNOWN ∧
    (classifyError (.raw "weird")).retryable = false := by
  refine ⟨classifyError_priority_order.1 _, ?_, ?_, ?_, ?_, ?_, ?_, ?_⟩
  · exact ((classifyError_priority_order.2 "Permission DENIED by server").1 (by decide)).1
  · have h := ((classifyError_priority_order.2
      "429 Too Many Requests, retry in 2 minutes").2.1) (by decide) (by decide)
    rw [h.2.2]
    decide
  · exact (((classifyError_priority_order.2 "fetch failed").2.2.1)
      (by decide) (by decide) (by decide)).1
  · exact (((classifyError_priority_order.2 "input exceeds the maximum size").2.2.2.1)
      (by decide) (by decide) (by decide) (by decide)).1
  · exact (((classifyError_priority_order.2 "503 Service Unavailable").2.2.2.2.1)
      (by decide) (by decide) (by decide) (by decide) (by decide)).1
  · exact (((classifyError_priority_order.2 "weird").2.2.2.2.2)
      (by decide) (by decide) (by decide) (by decide) (by decide)).1
  · exact (((classifyError_priority_order.2 "weird").2.2.2.2.2)
      (by decide) (by decide) (by decide) (by decide) (by decide)).2


/-! ### Fingerprint hash (claim C3) -/

theorem str_data_append (a b : String) : (a ++ b).data = a.data ++ b.data := rfl

theorem hashInput_data (u m c : String) :
    (hashInput u m c).data = u.data ++ '|' :: (m.data ++ '|' :: c.data) := by
  have hp : ("|" : String).data = ['|'] := rfl
  simp [hashInput, str_data_append, hp]

theorem hashInput_injective_one_change (u u' m m' c c' : String)
    (hone : (u ≠ u' ∧ m = m' ∧ c = c') ∨ (u = u' ∧ m ≠ m' ∧ c = c') ∨
            (u = u' ∧ m = m' ∧ c ≠ c')) :
    hashInput u m c ≠ hashInput u' m' c' := by
  intro heq
  have hdata : u.data ++ '|' :: (m.data ++ '|' :: c.data) =
      u'.data ++ '|' :: (m'.data ++ '|' :: c'.data) := by
    rw [← hashInput_data, ← hashInput_data, heq]
  rcases hone with ⟨hu, rfl, rfl⟩ | ⟨rfl, hm, rfl⟩ | ⟨rfl, rfl, hc⟩
  · have hlen : u.data.length = u'.data.length := by
      have hl := congrArg List.length hdata
      simp only [List.length_append, List.length_cons] at hl
      omega
    exact hu (String.ext (List.append_inj hdata hlen).1)
  · have h2 : m.data ++ '|' :: c.data = m'.data ++ '|' :: c.data := by
      simpa using List.append_cancel_left hdata
    have hlen : m.data.length = m'.data.length := by
      have hl := congrArg List.length h2
      simp only [List.length_append, List.length_cons] at hl
      omega
    exact hm (String.ext (List.append_inj h2 hlen).1)
  · have h2 : m.data ++ '|' :: c.data = m.data ++ '|' :: c'.data := by
      simpa using List.append_cancel_left hdata
    have h3 : c.data = c'.data := by
      simpa using List.append_cancel_left h2
    exact hc (String.ext h3)

/-- Claim C3: `hash` is a pure, deterministic function of the triple
`(userInput, modelId, contextDigest)`: identical triples give the identical
fingerprint, and changing any one element of a triple changes the pipe-joined
data string fed to the digest, so the fingerprint changes unless the
truncated cryptographic digest itself collides on distinct inputs. -/
theorem hash_pure_deterministic_no_false_merges :
    (∀ u₁ u₂ m₁ m₂ c₁ c₂ : String, u₁ = u₂ → m₁ = m₂ → c₁ = c₂ →
      CacheManager.hash u₁ m₁ c₁ = CacheManager.hash u₂ m₂ c₂) ∧
    (∀ u u' m m' c c' : String,
      (u ≠ u' ∧ m = m' ∧ c = c') ∨ (u = u' ∧ m ≠ m' ∧ c = c') ∨
        (u = u' ∧ m = m' ∧ c ≠ c') →
      hashInput u m c ≠ hashInput u' m' c' ∧
      (CacheManager.hash u m c = CacheManager.hash u' m' c' →
        truncatedShaCollision (hashInput u m c) (hashInput u' m' c'))) := by
  refine ⟨fun u₁ u₂ m₁ m₂ c₁ c₂ hu hm hc => by rw [hu, hm, hc],
    fun u u' m m' c c' hone => ?_⟩
  have hne := hashInput_injective_one_change u u' m m' c c' hone
  exact ⟨hne, fun hh => ⟨hne, hh⟩⟩

/-- Witness for C3: determinism on an identical triple, and a changed first
element giving a different data string. -/
theorem hash_pure_deterministic_no_false_merges_witness :
    CacheManager.hash "a" "b" "c" = CacheManager.hash "a" "b" "c" ∧
    hashInput "a" "b" "c" ≠ hashInput "x" "b" "c" := by
  refine ⟨hash_pure_deterministic_no_false_merges.1 "a" "a" "b" "b" "c" "c" rfl rfl rfl, ?_⟩
  exact (hash_pure_deterministic_no_false_merges.2 "a" "x" "b" "b" "c" "c"
    (Or.inl ⟨by decide, rfl, rfl⟩)).1

set_option maxRecDepth 100000 in
/-- The SHA-256 embedding matches the standard test vector for "abc". -/
theorem sha256_test_vector :
    String.mk (sha256HexChars (strUtf8 "abc")) =
      "ba7816bf8f01cfea414140de5dae2223b00361a396177a9cb410ff61f20015ad" := by
  decide


/-! ### Map lemmas (for claims C8 and C9) -/

theorem mapGet_eq_none_iff {β : Type} (m : List (String × β)) (k : String) :
    mapGet m k = none ↔ k ∉ m.map Prod.fst := by
  induction m with
  | nil => simp [mapGet]
  | cons p t ih =>
    rw [mapGet]
    by_cases h : p.1 = k
    · simp [h]
    · simp [h, ih, Ne.symm h]

theorem mapGet_isSome_mem {β : Type} {m : List (String × β)} {k : String} {v : β}
    (h : mapGet m k = some v) : (k, v) ∈ m := by
  induction m with
  | nil => simp [mapGet] at h
  | cons p t ih =>
    obtain ⟨p1, p2⟩ := p
    rw [mapGet] at h
    by_cases hp : p1 = k
    · rw [if_pos hp] at h
      injection h with hv
      subst hv
      subst hp
      exact List.mem_cons_self _ _
    · rw [if_neg hp] at h
      exact List.mem_cons_of_mem _ (ih h)

theorem mapSet_length {β : Type} (m : List (String × β)) (k : String) (v : β) :
    (mapSet m k v).length = if mapHas m k then m.length else m.length + 1 := by
  induction m with
  | nil => simp [mapSet, mapHas, mapGet]
  | cons p t ih =>
    rw [mapSet]
    by_cases h : p.1 = k
    · simp [h, mapHas, mapGet]
    · simp only [if_neg h, List.length_cons, ih, mapHas, mapGet, if_neg h]
      by_cases ht : (mapGet t k).isSome <;> simp [ht]

theorem mapSet_keys {β : Type} (m : List (String × β)) (k : String) (v : β) :
    (mapSet m k v).map Prod.fst =
      if mapHas m k then m.map Prod.fst else m.map Prod.fst ++ [k] := by
  induction m with
  | nil => simp [mapSet, mapHas, mapGet]
  | cons p t ih =>
    rw [mapSet]
    by_cases h : p.1 = k
    · simp [h, mapHas, mapGet]
    · simp only [if_neg h, List.map_cons, ih, mapHas, mapGet, if_neg h]
      by_cases ht : (mapGet t k).isSome <;> simp [ht]

theorem mem_mapSet {β : Type} {k : String} {v : β} {p : String × β} :
    ∀ {m : List (String × β)}, p ∈ mapSet m k v → p = (k, v) ∨ p ∈ m := by
  intro m
  induction m with
  | nil => intro hp; simpa [mapSet] using hp
  | cons q t ih =>
    intro hp
    rw [mapSet] at hp
    by_cases h : q.1 = k
    · rw [if_pos h] at hp
      rcases List.mem_cons.1 hp with hp | hp
      · exact Or.inl hp
      · exact Or.inr (List.mem_cons_of_mem _ hp)
    · rw [if_neg h] at hp
      rcases List.mem_cons.1 hp with hp | hp
      · exact Or.inr (by simp [hp])
      · rcases ih hp with h' | h'
        · exact Or.inl h'
        · exact Or.inr (List.mem_cons_of_mem _ h')

theorem mapSet_of_not_has {β : Type} (m : List (String × β)) (k : String) (v : β)
    (h : mapHas m k = false) : mapSet m k v = m ++ [(k, v)] := by
  induction m with
  | nil => simp [mapSet]
  | cons p t ih =>
    rw [mapSet]
    have hp : p.1 ≠ k := by
      intro hpk
      simp [mapHas, mapGet, hpk] at h
    rw [if_neg hp, List.cons_append]
    refine congrArg _ (ih ?_)
    simpa [mapHas, mapGet, hp] using h

theorem mapGet_mapSet_ne {β : Type} (m : List (String × β)) (k k' : String) (v : β)
    (h : k ≠ k') : mapGet (mapSet m k' v) k = mapGet m k := by
  induction m with
  | nil => simp [mapSet, mapGet, Ne.symm h]
  | cons p t ih =>
    rw [mapSet]
    by_cases hp : p.1 = k'
    · have hpk : p.1 ≠ k := by rw [hp]; exact Ne.symm h
      rw [if_pos hp, mapGet, if_neg (Ne.symm h), mapGet, if_neg hpk]
    · rw [if_neg hp, mapGet, mapGet]
      by_cases hk : p.1 = k
      · simp [hk]
      · simp [hk, ih]

theorem mem_mapDelete {β : Type} {m : List (String × β)} {k : String} {p : String × β}
    (hp : p ∈ mapDelete m k) : p ∈ m ∧ p.1 ≠ k := by
  have h := List.mem_filter.1 hp
  exact ⟨h.1, by simpa using h.2⟩

theorem mapDelete_length_le {β : Type} (m : List (String × β)) (k : String) :
    (mapDelete m k).length ≤ m.length :=
  List.length_filter_le _ _

theorem mapDelete_keys_sublist {β : Type} (m : List (String × β)) (k : String) :
    ((mapDelete m k).map Prod.fst).Sublist (m.map Prod.fst) :=
  (List.filter_sublist m).map Prod.fst

theorem mapDelete_length_lt {β : Type} (m : List (String × β)) (k : String)
    (h : mapHas m k = true) : (mapDelete m k).length < m.length := by
  rw [mapDelete, List.length_filter_lt_length_iff_exists]
  obtain ⟨v, hv⟩ : ∃ v, mapGet m k = some v := by
    rw [mapHas] at h
    exact Option.isSome_iff_exists.1 h
  exact ⟨(k, v), mapGet_isSome_mem hv, by simp⟩

theorem mapGet_mapDelete_ne {β : Type} (m : List (String × β)) (k k' : String)
    (h : k ≠ k') : mapGet (mapDelete m k') k = mapGet m k := by
  induction m with
  | nil => rfl
  | cons p t ih =>
    rw [mapDelete]
    by_cases hp : p.1 = k'
    · rw [List.filter_cons_of_neg (by simp [hp])]
      have hpk : p.1 ≠ k := by rw [hp]; exact Ne.symm h
      rw [mapDelete] at ih
      conv_rhs => rw [mapGet, if_neg hpk]
      exact ih
    · rw [List.filter_cons_of_pos (by simp [hp]), mapGet, mapGet]
      rw [mapDelete] at ih
      by_cases hk : p.1 = k
      · rw [if_pos hk, if_pos hk]
      · rw [if_neg hk, if_neg hk]
        exact ih

theorem mapHas_mapDelete_false {β : Type} (m : List (String × β)) (k k' : String)
    (h : mapHas m k' = false) : mapHas (mapDelete m k) k' = false := by
  by_cases hk : k' = k
  · subst hk
    have hnone : mapGet (mapDelete m k') k' = none := by
      rw [mapGet_eq_none_iff]
      intro hmem
      obtain ⟨p, hp, hp1⟩ := List.mem_map.1 hmem
      exact (mem_mapDelete hp).2 hp1
    rw [mapHas, hnone]
    rfl
  · rw [mapHas, mapGet_mapDelete_ne _ _ _ hk]
    exact h


/-! ### `evictOldest` properties -/

theorem findOldestAux_spec :
    ∀ (l : List (String × CacheEntry)) (best : Option (String × Nat)) (k : String) (t : Nat),
      findOldestAux l best = some (k, t) →
      ((best = some (k, t) ∨ ∃ e, (k, e) ∈ l ∧ e.timestamp = t) ∧
       (∀ p ∈ l, t ≤ p.2.timestamp) ∧
       (∀ bk bt, best = some (bk, bt) → t ≤ bt))
  | [], best, k, t, h => by
    rw [findOldestAux] at h
    exact ⟨Or.inl h, by simp, fun bk bt hb => by rw [hb] at h; cases h; exact Nat.le_refl _⟩
  | (k', e') :: tl, none, k, t, h => by
    rw [findOldestAux] at h
    obtain ⟨hmem, hmin, hbest⟩ := findOldestAux_spec tl (some (k', e'.timestamp)) k t h
    refine ⟨?_, ?_, by simp⟩
    · rcases hmem with hm | ⟨e, he, ht⟩
      · injection hm with hm
        injection hm with hk ht
        subst hk
        subst ht
        exact Or.inr ⟨e', List.mem_cons_self _ _, rfl⟩
      · exact Or.inr ⟨e, List.mem_cons_of_mem _ he, ht⟩
    · intro p hp
      rcases List.mem_cons.1 hp with rfl | hp
      · exact hbest _ _ rfl
      · exact hmin p hp
  | (k', e') :: tl, some (bk, bt), k, t, h => by
    rw [findOldestAux] at h
    by_cases hlt : e'.timestamp < bt
    · rw [if_pos hlt] at h
      obtain ⟨hmem, hmin, hbest⟩ := findOldestAux_spec tl (some (k', e'.timestamp)) k t h
      refine ⟨?_, ?_, ?_⟩
      · rcases hmem with hm | ⟨e, he, ht⟩
        · injection hm with hm
          injection hm with hk ht
          subst hk
          subst ht
          exact Or.inr ⟨e', List.mem_cons_self _ _, rfl⟩
        · exact Or.inr ⟨e, List.mem_cons_of_mem _ he, ht⟩
      · intro p hp
        rcases List.mem_cons.1 hp with rfl | hp
        · exact hbest _ _ rfl
        · exact hmin p hp
      · intro bk' bt' hb
        injection hb with hb
        injection hb with hbk hbt
        subst hbt
        exact Nat.le_of_lt (Nat.lt_of_le_of_lt (hbest k' e'.timestamp rfl) hlt)
    · rw [if_neg hlt] at h
      obtain ⟨hmem, hmin, hbest⟩ := findOldestAux_spec tl (some (bk, bt)) k t h
      refine ⟨?_, ?_, hbest⟩
      · rcases hmem with hm | ⟨e, he, ht⟩
        · exact Or.inl hm
        · exact Or.inr ⟨e, List.mem_cons_of_mem _ he, ht⟩
      · intro p hp
        rcases List.mem_cons.1 hp with rfl | hp
        · exact Nat.le_trans (hbest _ _ rfl) (Nat.le_of_not_lt hlt)
        · exact hmin p hp

theorem findOldestAux_isSome :
    ∀ (l : List (String × CacheEntry)) (bk : String) (bt : Nat),
      (findOldestAux l (some (bk, bt))).isSome = true
  | [], _, _ => rfl
  | (k', e') :: tl, bk, bt => by
    rw [findOldestAux]
    by_cases h : e'.timestamp < bt
    · rw [if_pos h]; exact findOldestAux_isSome tl _ _
    · rw [if_neg h]; exact findOldestAux_isSome tl _ _

theorem findOldestAux_cons_isSome (p : String × CacheEntry) (tl : List (String × CacheEntry)) :
    (findOldestAux (p :: tl) none).isSome = true := by
  obtain ⟨k', e'⟩ := p
  rw [findOldestAux]
  exact findOldestAux_isSome tl _ _


theorem findOldestAux_keep :
    ∀ (tl : List (String × CacheEntry)) (bk : String) (bt : Nat),
      (∀ p ∈ tl, ¬ p.2.timestamp < bt) →
      findOldestAux tl (some (bk, bt)) = some (bk, bt)
  | [], _, _, _ => rfl
  | (k', e') :: tl, bk, bt, h => by
    rw [findOldestAux, if_neg (h (k', e') (List.mem_cons_self _ _))]
    exact findOldestAux_keep tl bk bt (fun p hp => h p (List.mem_cons_of_mem _ hp))

/-- When a unique strictly-oldest entry exists, the fold finds exactly it. -/
theorem findOldestAux_unique (k0 : String) (e0 : CacheEntry) :
    ∀ (l : List (String × CacheEntry)) (best : Option (String × Nat)),
      (k0, e0) ∈ l →
      (l.map Prod.fst).Nodup →
      (∀ p ∈ l, p.1 ≠ k0 → e0.timestamp < p.2.timestamp) →
      (best = none ∨ ∃ bk bt, best = some (bk, bt) ∧ e0.timestamp < bt) →
      findOldestAux l best = some (k0, e0.timestamp)
  | [], best, hmem, _, _, _ => by simp at hmem
  | (k', e') :: tl, best, hmem, hnodup, hmin, hbest => by
    by_cases hk : k' = k0
    · subst hk
      have he : e' = e0 := by
        rcases List.mem_cons.1 hmem with hm | hm
        · injection hm with h1 h2
          exact h2.symm
        · exfalso
          have h1 : k' ∉ tl.map Prod.fst := by
            have h2 := hnodup
            rw [List.map_cons, List.nodup_cons] at h2
            exact h2.1
          exact h1 (List.mem_map.2 ⟨(k', e0), hm, rfl⟩)
      subst he
      have hrest : ∀ p ∈ tl, ¬ p.2.timestamp < e'.timestamp := by
        intro p hp
        have hne : p.1 ≠ k' := by
          intro hpk
          have h1 : k' ∉ tl.map Prod.fst := by
            have h2 := hnodup
            rw [List.map_cons, List.nodup_cons] at h2
            exact h2.1
          exact h1 (List.mem_map.2 ⟨p, hp, hpk⟩)
        exact Nat.not_lt.2 (Nat.le_of_lt (hmin p (List.mem_cons_of_mem _ hp) hne))
      rcases hbest with rfl | ⟨bk, bt, rfl, hbt⟩
      · rw [findOldestAux]
        exact findOldestAux_keep tl _ _ hrest
      · rw [findOldestAux, if_pos hbt]
        exact findOldestAux_keep tl _ _ hrest
    · have hmem' : (k0, e0) ∈ tl := by
        rcases List.mem_cons.1 hmem with hm | hm
        · exfalso
          injection hm with h1 _
          exact hk h1.symm
        · exact hm
      have hlt : e0.timestamp < e'.timestamp :=
        hmin (k', e') (List.mem_cons_self _ _) (by simpa using hk)
      have hnodup' : (tl.map Prod.fst).Nodup := by
        have h2 := hnodup
        rw [List.map_cons, List.nodup_cons] at h2
        exact h2.2
      have hmin' : ∀ p ∈ tl, p.1 ≠ k0 → e0.timestamp < p.2.timestamp :=
        fun p hp => hmin p (List.mem_cons_of_mem _ hp)
      rcases hbest with rfl | ⟨bk, bt, rfl, hbt⟩
      · rw [findOldestAux]
        exact findOldestAux_unique k0 e0 tl _ hmem' hnodup' hmin'
          (Or.inr ⟨k', e'.timestamp, rfl, hlt⟩)
      · rw [findOldestAux]
        by_cases hcmp : e'.timestamp < bt
        · rw [if_pos hcmp]
          exact findOldestAux_unique k0 e0 tl _ hmem' hnodup' hmin'
            (Or.inr ⟨k', e'.timestamp, rfl, hlt⟩)
        · rw [if_neg hcmp]
          exact findOldestAux_unique k0 e0 tl _ hmem' hnodup' hmin'
            (Or.inr ⟨bk, bt, rfl, hbt⟩)

/-- With a unique strictly-oldest entry whose key is non-empty, `evictOldest`
deletes exactly that entry. -/
theorem evictOldest_unique (st : CacheManager) (k0 : String) (e0 : CacheEntry)
    (hmem : (k0, e0) ∈ st.cache) (hk0 : k0 ≠ "")
    (hnodup : (st.cache.map Prod.fst).Nodup)
    (hmin : ∀ p ∈ st.cache, p.1 ≠ k0 → e0.timestamp < p.2.timestamp) :
    st.evictOldest = { st with cache := mapDelete st.cache k0 } := by
  rw [CacheManager.evictOldest,
    findOldestAux_unique k0 e0 st.cache none hmem hnodup hmin (Or.inl rfl)]
  show (if k0 = "" then st
        else { st with cache := mapDelete st.cache k0 }) =
    { st with cache := mapDelete st.cache k0 }
  rw [if_neg hk0]

/-- On a non-empty cache with no empty-string key, `evictOldest` removes one
present entry: the size strictly decreases and nothing else changes. -/
theorem evictOldest_shrink (st : CacheManager) (hne : st.cache ≠ [])
    (hkeys : ∀ p ∈ st.cache, p.1 ≠ "") :
    st.evictOldest.cache.length < st.cache.length ∧
    st.evictOldest.maxSize = st.maxSize ∧ st.evictOldest.ttl = st.ttl ∧
    (∀ p ∈ st.evictOldest.cache, p ∈ st.cache) ∧
    (st.evictOldest.cache.map Prod.fst).Sublist (st.cache.map Prod.fst) := by
  obtain ⟨p, tl, hcons⟩ : ∃ p tl, st.cache = p :: tl := by
    cases hc : st.cache with
    | nil => exact absurd hc hne
    | cons p tl => exact ⟨p, tl, rfl⟩
  obtain ⟨⟨k1, t1⟩, hfind⟩ : ∃ q, findOldestAux st.cache none = some q := by
    rw [hcons]
    exact Option.isSome_iff_exists.1 (findOldestAux_cons_isSome p tl)
  obtain ⟨hmem, _hmin, _⟩ := findOldestAux_spec st.cache none k1 t1 hfind
  rcases hmem with hm | ⟨e1, he1, _⟩
  · cases hm
  · have hk1 : k1 ≠ "" := hkeys (k1, e1) he1
    have hhas : mapHas st.cache k1 = true := by
      rw [mapHas]
      cases hget : mapGet st.cache k1 with
      | some v => rfl
      | none =>
        exfalso
        rw [mapGet_eq_none_iff] at hget
        exact hget (List.mem_map.2 ⟨(k1, e1), he1, rfl⟩)
    have heq : st.evictOldest = { st with cache := mapDelete st.cache k1 } := by
      rw [CacheManager.evictOldest, hfind]
      show (if k1 = "" then st
            else { st with cache := mapDelete st.cache k1 }) =
        { st with cache := mapDelete st.cache k1 }
      rw [if_neg hk1]
    rw [heq]
    exact ⟨mapDelete_length_lt _ _ hhas, rfl, rfl,
      fun p hp => (mem_mapDelete hp).1, mapDelete_keys_sublist _ _⟩


/-! ### Capacity invariant (claim C8) -/

theorem mapHas_eq_false_iff {β : Type} (m : List (String × β)) (k : String) :
    mapHas m k = false ↔ k ∉ m.map Prod.fst := by
  constructor
  · intro h hk
    cases hg : mapGet m k with
    | none => exact (mapGet_eq_none_iff _ _).1 hg hk
    | some v => rw [mapHas, hg] at h; simp at h
  · intro h
    have hn : mapGet m k = none := by
      cases hg : mapGet m k with
      | none => rfl
      | some v => exact absurd (List.mem_map.2 ⟨(k, v), mapGet_isSome_mem hg, rfl⟩) h
    rw [mapHas, hn]
    rfl

theorem goodCache_set (st : CacheManager) (now : Nat) (key value model : String)
    (len : Nat) (h : GoodCache st) (hkey : key ≠ "") :
    GoodCache (st.set now key value model len) := by
  obtain ⟨hmax, hsize, hkeys, hnodup⟩ := h
  simp only [CacheManager.set]
  by_cases hguard : st.maxSize ≤ st.cache.length ∧ mapHas st.cache key = false
  · rw [if_pos hguard]
    have hne : st.cache ≠ [] := by
      intro hnil
      rw [hnil] at hguard
      simp at hguard
      omega
    obtain ⟨hlt, hmx, _httl, hsub, hsublist⟩ := evictOldest_shrink st hne hkeys
    have hhas1 : mapHas st.evictOldest.cache key = false := by
      rw [mapHas_eq_false_iff]
      intro hk
      obtain ⟨p, hp, hp1⟩ := List.mem_map.1 hk
      exact (mapHas_eq_false_iff _ _).1 hguard.2 (List.mem_map.2 ⟨p, hsub p hp, hp1⟩)
    refine ⟨by rw [hmx]; exact hmax, ?_, ?_, ?_⟩
    · rw [mapSet_length, hhas1]
      simp only [Bool.false_eq_true, if_false]
      rw [hmx]
      omega
    · intro p hp
      rcases mem_mapSet hp with rfl | hp
      · exact hkey
      · exact hkeys p (hsub p hp)
    · rw [mapSet_keys, hhas1]
      simp only [Bool.false_eq_true, if_false]
      rw [List.nodup_append]
      refine ⟨hsublist.nodup hnodup, List.nodup_singleton _, ?_⟩
      intro a ha hb
      rw [List.mem_singleton] at hb
      subst hb
      exact (mapHas_eq_false_iff _ _).1 hhas1 ha
  · rw [if_neg hguard]
    refine ⟨hmax, ?_, ?_, ?_⟩
    · rw [mapSet_length]
      cases hh : mapHas st.cache key with
      | true => simp only [if_true]; exact hsize
      | false =>
        simp only [Bool.false_eq_true, if_false]
        have : ¬ st.maxSize ≤ st.cache.length := fun hc => hguard ⟨hc, hh⟩
        omega
    · intro p hp
      rcases mem_mapSet hp with rfl | hp
      · exact hkey
      · exact hkeys p hp
    · rw [mapSet_keys]
      cases hh : mapHas st.cache key with
      | true => simp only [if_true]; exact hnodup
      | false =>
        simp only [Bool.false_eq_true, if_false]
        rw [List.nodup_append]
        refine ⟨hnodup, List.nodup_singleton _, ?_⟩
        intro a ha hb
        rw [List.mem_singleton] at hb
        subst hb
        exact (mapHas_eq_false_iff _ _).1 hh ha

theorem goodCache_get (st : CacheManager) (now : Nat) (key : String)
    (h : GoodCache st) : GoodCache (st.get now key).2 := by
  obtain ⟨hmax, hsize, hkeys, hnodup⟩ := h
  rw [CacheManager.get]
  split
  · rename_i entry hg
    split
    · refine ⟨hmax, Nat.le_trans (mapDelete_length_le _ _) hsize, ?_, ?_⟩
      · intro p hp
        exact hkeys p (mem_mapDelete hp).1
      · exact (mapDelete_keys_sublist _ _).nodup hnodup
    · have hhas : mapHas st.cache key = true := by rw [mapHas, hg]; rfl
      refine ⟨hmax, ?_, ?_, ?_⟩
      · show (mapSet st.cache key _).length ≤ st.maxSize
        rw [mapSet_length, hhas, if_pos rfl]
        exact hsize
      · intro p hp
        rcases mem_mapSet hp with rfl | hp
        · exact hkeys (key, entry) (mapGet_isSome_mem hg)
        · exact hkeys p hp
      · show ((mapSet st.cache key _).map Prod.fst).Nodup
        rw [mapSet_keys, hhas, if_pos rfl]
        exact hnodup
  · exact ⟨hmax, hsize, hkeys, hnodup⟩

theorem goodCache_hasKey (st : CacheManager) (now : Nat) (key : String)
    (h : GoodCache st) : GoodCache (st.hasKey now key).2 := by
  obtain ⟨hmax, hsize, hkeys, hnodup⟩ := h
  rw [CacheManager.hasKey]
  split
  · rename_i entry hg
    split
    · refine ⟨hmax, Nat.le_trans (mapDelete_length_le _ _) hsize, ?_, ?_⟩
      · intro p hp
        exact hkeys p (mem_mapDelete hp).1
      · exact (mapDelete_keys_sublist _ _).nodup hnodup
    · exact ⟨hmax, hsize, hkeys, hnodup⟩
  · exact ⟨hmax, hsize, hkeys, hnodup⟩

theorem goodCache_prune (st : CacheManager) (now : Nat)
    (h : GoodCache st) : GoodCache (st.prune now).2 := by
  obtain ⟨hmax, hsize, hkeys, hnodup⟩ := h
  rw [CacheManager.prune]
  refine ⟨hmax, Nat.le_trans (List.length_filter_le _ _) hsize, ?_, ?_⟩
  · intro p hp
    exact hkeys p (List.mem_filter.1 hp).1
  · exact ((List.filter_sublist st.cache).map Prod.fst).nodup hnodup

theorem goodCache_clear (st : CacheManager) (h : GoodCache st) :
    GoodCache st.clear := by
  obtain ⟨hmax, _, _, _⟩ := h
  exact ⟨hmax, by simp [CacheManager.clear], by simp [CacheManager.clear],
    by simp [CacheManager.clear]⟩

theorem shrinkLoop_spec :
    ∀ (fuel : Nat) (st : CacheManager),
      (∀ p ∈ st.cache, p.1 ≠ "") →
      (st.cache.map Prod.fst).Nodup →
      st.cache.length ≤ fuel + st.maxSize →
      (shrinkLoop fuel st).maxSize = st.maxSize ∧
      (shrinkLoop fuel st).cache.length ≤ st.maxSize ∧
      (∀ p ∈ (shrinkLoop fuel st).cache, p.1 ≠ "") ∧
      ((shrinkLoop fuel st).cache.map Prod.fst).Nodup
  | 0, st, hkeys, hnodup, hsize => ⟨rfl, by simpa using hsize, hkeys, hnodup⟩
  | fuel + 1, st, hkeys, hnodup, hsize => by
    rw [shrinkLoop]
    by_cases hover : st.maxSize < st.cache.length
    · rw [if_pos hover]
      have hne : st.cache ≠ [] := by
        intro hnil
        rw [hnil] at hover
        simp at hover
      obtain ⟨hlt, hmx, _httl, hsub, hsublist⟩ := evictOldest_shrink st hne hkeys
      have hkeys' : ∀ p ∈ st.evictOldest.cache, p.1 ≠ "" :=
        fun p hp => hkeys p (hsub p hp)
      have hnodup' : (st.evictOldest.cache.map Prod.fst).Nodup := hsublist.nodup hnodup
      have hsize' : st.evictOldest.cache.length ≤ fuel + st.evictOldest.maxSize := by
        rw [hmx]
        omega
      obtain ⟨h1, h2, h3, h4⟩ := shrinkLoop_spec fuel st.evictOldest hkeys' hnodup' hsize'
      exact ⟨by rw [h1, hmx], by rw [← hmx]; exact h2, h3, h4⟩
    · rw [if_neg hover]
      exact ⟨rfl, by omega, hkeys, hnodup⟩

theorem goodCache_updateConfig (st : CacheManager) (newMaxSize newTtl : Nat)
    (h : GoodCache st) (hmx : 1 ≤ newMaxSize) :
    GoodCache (st.updateConfig newMaxSize newTtl) := by
  obtain ⟨_, _, hkeys, hnodup⟩ := h
  rw [CacheManager.updateConfig]
  obtain ⟨h1, h2, h3, h4⟩ := shrinkLoop_spec st.cache.length
    { st with maxSize := newMaxSize, ttl := newTtl } hkeys hnodup (by simp)
  exact ⟨by rw [h1]; exact hmx, by rw [h1]; exact h2, h3, h4⟩

theorem applyCacheOp_good (st : CacheManager) (op : CacheOp)
    (h : GoodCache st) (hop : cacheOpOK op = true) : GoodCache (applyCacheOp st op) := by
  cases op with
  | get now key => exact goodCache_get st now key h
  | set now key value model len =>
    exact goodCache_set st now key value model len h (by simpa [cacheOpOK] using hop)
  | hasKey now key => exact goodCache_hasKey st now key h
  | prune now => exact goodCache_prune st now h
  | clear => exact goodCache_clear st h
  | updateConfig mx t =>
    exact goodCache_updateConfig st mx t h (by simpa [cacheOpOK] using hop)

theorem runCacheOps_good :
    ∀ (ops : List CacheOp) (st : CacheManager),
      GoodCache st → (∀ op ∈ ops, cacheOpOK op = true) →
      GoodCache (runCacheOps st ops)
  | [], st, h, _ => h
  | op :: rest, st, h, hops => by
    rw [runCacheOps, List.foldl_cons]
    exact runCacheOps_good rest (applyCacheOp st op)
      (applyCacheOp_good st op h (hops op (List.mem_cons_self _ _)))
      (fun o ho => hops o (List.mem_cons_of_mem _ ho))

/-- Claim C8 (amended): for every sequence of cache operations whose `set`s
use non-empty keys and whose reconfigurations keep `maxSize ≥ 1`, starting
from a well-formed cache with `maxSize ≥ 1`, the cache never holds more than
`maxSize` entries: `set` evicts an oldest entry before inserting a new key at
capacity, and shrinking `maxSize` evicts until the bound is restored.  (The
counterexample shows the two restrictions are forced: with `maxSize = 0` a
`set` still inserts, and an empty-string key defeats `evictOldest`'s
truthiness guard.) -/
theorem cache_never_exceeds_maxSize (st : CacheManager) (ops : List CacheOp)
    (hmax : 1 ≤ st.maxSize) (hsize : st.cache.length ≤ st.maxSize)
    (hkeys : ∀ p ∈ st.cache, p.1 ≠ "") (hnodup : (st.cache.map Prod.fst).Nodup)
    (hops : ∀ op ∈ ops, cacheOpOK op = true) :
    (runCacheOps st ops).cache.length ≤ (runCacheOps st ops).maxSize :=
  (runCacheOps_good ops st ⟨hmax, hsize, hkeys, hnodup⟩ hops).2.1

/-- Counterexample to C8 as stated: with `maxSize = 0` a single `set` leaves
one entry (1 > 0); with `maxSize = 1`, filling the cache under the key `""`
and inserting a second key leaves two entries (2 > 1), because
`evictOldest`'s `if (oldestKey)` guard is falsy for the empty-string key. -/
theorem cache_never_exceeds_maxSize_counterexample :
    (let st0 : CacheManager := ⟨[], 0, 1000, 0, 0⟩
     (st0.set 5 "k" "v" "m" 1).maxSize = 0 ∧
     (st0.set 5 "k" "v" "m" 1).cache.length = 1) ∧
    (let st1 : CacheManager := ⟨[], 1, 1000, 0, 0⟩
     ((st1.set 1 "" "v0" "m" 1).set 2 "k" "v" "m" 1).maxSize = 1 ∧
     ((st1.set 1 "" "v0" "m" 1).set 2 "k" "v" "m" 1).cache.length = 2) := by
  decide

/-- Witness for C8 (amended) on a concrete operation sequence that exercises
insertion at capacity, an LRU touch, a shrinking reconfiguration and a prune. -/
theorem cache_never_exceeds_maxSize_witness :
    (runCacheOps ⟨[], 2, 1000, 0, 0⟩
        [.set 0 "a" "va" "m" 1, .set 1 "b" "vb" "m" 1, .set 2 "c" "vc" "m" 1,
         .get 3 "b", .updateConfig 1 500, .prune 4]).cache.length ≤
      (runCacheOps ⟨[], 2, 1000, 0, 0⟩
        [.set 0 "a" "va" "m" 1, .set 1 "b" "vb" "m" 1, .set 2 "c" "vc" "m" 1,
         .get 3 "b", .updateConfig 1 500, .prune 4]).maxSize := by
  refine cache_never_exceeds_maxSize _ _ (by decide) (by decide) (by decide) (by decide) ?_
  decide


/-! ### Exact LRU eviction and the `get` touch (claim C9) -/

theorem mapGet_mapSet_self {β : Type} (m : List (String × β)) (k : String) (v : β) :
    mapGet (mapSet m k v) k = some v := by
  induction m with
  | nil => simp [mapSet, mapGet]
  | cons p t ih =>
    rw [mapSet]
    by_cases hp : p.1 = k
    · rw [if_pos hp, mapGet, if_pos rfl]
    · rw [if_neg hp, mapGet, if_neg hp]
      exact ih

theorem mem_mapSet_of_ne {β : Type} {m : List (String × β)} {p : String × β} {k : String}
    (hp : p ∈ m) (hne : p.1 ≠ k) (v : β) : p ∈ mapSet m k v := by
  induction m with
  | nil => simp at hp
  | cons q t ih =>
    rw [mapSet]
    by_cases hq : q.1 = k
    · rw [if_pos hq]
      rcases List.mem_cons.1 hp with rfl | hp
      · exact absurd hq hne
      · exact List.mem_cons_of_mem _ hp
    · rw [if_neg hq]
      rcases List.mem_cons.1 hp with rfl | hp
      · exact List.mem_cons_self _ _
      · exact List.mem_cons_of_mem _ (ih hp)

theorem mapGet_of_mem_nodup {β : Type} :
    ∀ {m : List (String × β)} {k : String} {v : β},
      (k, v) ∈ m → (m.map Prod.fst).Nodup → mapGet m k = some v := by
  intro m
  induction m with
  | nil => intro k v hm _; simp at hm
  | cons q t ih =>
    intro k v hm hnd
    rw [List.map_cons, List.nodup_cons] at hnd
    rw [mapGet]
    rcases List.mem_cons.1 hm with rfl | hm
    · rw [if_pos rfl]
    · have hq : q.1 ≠ k := by
        intro hqk
        exact hnd.1 (hqk ▸ List.mem_map.2 ⟨(k, v), hm, rfl⟩)
      rw [if_neg hq]
      exact ih hm hnd.2

/-- An entry strictly newer than some other entry is never the one
`evictOldest` removes. -/
theorem evictOldest_preserves_newer (st : CacheManager) (k : String) (e : CacheEntry)
    (hget : mapGet st.cache k = some e)
    (hnodup : (st.cache.map Prod.fst).Nodup)
    (j : String × CacheEntry) (hj : j ∈ st.cache) (_hjk : j.1 ≠ k)
    (hjt : j.2.timestamp < e.timestamp) :
    mapGet st.evictOldest.cache k = some e := by
  rw [CacheManager.evictOldest]
  cases hfind : findOldestAux st.cache none with
  | none => exact hget
  | some q =>
    obtain ⟨w, t⟩ := q
    show mapGet (if w = "" then st
        else { st with cache := mapDelete st.cache w }).cache k = some e
    obtain ⟨hwmem, hwmin, _⟩ := findOldestAux_spec st.cache none w t hfind
    have hwk : w ≠ k := by
      intro hwkk
      subst hwkk
      rcases hwmem with hm | ⟨ew, hew, hewt⟩
      · cases hm
      · have hge : mapGet st.cache w = some ew := mapGet_of_mem_nodup hew hnodup
        rw [hget] at hge
        injection hge with hv
        have h1 : e.timestamp = t := by rw [hv, hewt]
        have h2 : t ≤ j.2.timestamp := hwmin j hj
        omega
    by_cases hw0 : w = ""
    · rw [if_pos hw0]
      exact hget
    · rw [if_neg hw0]
      show mapGet (mapDelete st.cache w) k = some e
      rw [mapGet_mapDelete_ne _ _ _ (Ne.symm hwk)]
      exact hget

/-- Claim C9, in two parts.  (1) A cache filled to `maxSize` distinct keys
with a unique strictly-oldest entry under a non-empty key: inserting one more
distinct key evicts exactly the oldest entry and appends the new one.
(2) Reading a key via `get` (a non-expired hit) refreshes its timestamp, so
as long as some other entry is strictly older than the read time, a
subsequent insertion of a fresh key never evicts the just-read entry. -/
theorem lru_evicts_oldest_and_get_protects :
    (∀ (st : CacheManager) (now : Nat) (newKey value model : String) (len : Nat)
       (k0 : String) (e0 : CacheEntry),
      st.cache.length = st.maxSize →
      (k0, e0) ∈ st.cache → k0 ≠ "" →
      (st.cache.map Prod.fst).Nodup →
      (∀ p ∈ st.cache, p.1 ≠ k0 → e0.timestamp < p.2.timestamp) →
      mapHas st.cache newKey = false →
      (st.set now newKey value model len).cache =
        mapDelete st.cache k0 ++ [(newKey, ⟨value, now, model, len⟩)]) ∧
    (∀ (st : CacheManager) (nowGet nowSet : Nat) (k newKey value model : String)
       (len : Nat) (e : CacheEntry) (j : String × CacheEntry),
      mapGet st.cache k = some e →
      ¬ nowGet - e.timestamp > st.ttl →
      (st.cache.map Prod.fst).Nodup →
      j ∈ st.cache → j.1 ≠ k → j.2.timestamp < nowGet →
      newKey ≠ k →
      mapHas (((st.get nowGet k).2).set nowSet newKey value model len).cache k = true) := by
  constructor
  · intro st now newKey value model len k0 e0 hfull hmem hk0 hnodup hmin hnew
    have hset : (st.set now newKey value model len).cache =
        mapSet st.evictOldest.cache newKey ⟨value, now, model, len⟩ := by
      simp only [CacheManager.set]
      rw [if_pos ⟨by omega, hnew⟩]
    rw [hset, evictOldest_unique st k0 e0 hmem hk0 hnodup hmin]
    exact mapSet_of_not_has _ _ _ (mapHas_mapDelete_false _ _ _ hnew)
  · intro st nowGet nowSet k newKey value model len e j hgete hexp hnodup hj hjk hjt hkk'
    have hget : (st.get nowGet k).2 =
        { st with cache := mapSet st.cache k { e with timestamp := nowGet },
                  hits := st.hits + 1 } := by
      rw [CacheManager.get, hgete]
      show (if nowGet - e.timestamp > st.ttl then
          (none, { st with cache := mapDelete st.cache k, misses := st.misses + 1 })
        else
          (some e.value,
           { st with cache := mapSet st.cache k { e with timestamp := nowGet },
                     hits := st.hits + 1 })).2 = _
      rw [if_neg hexp]
    rw [hget]
    have hk1 : mapGet (mapSet st.cache k { e with timestamp := nowGet }) k =
        some { e with timestamp := nowGet } := mapGet_mapSet_self _ _ _
    have hhas1 : mapHas st.cache k = true := by rw [mapHas, hgete]; rfl
    have hnodup1 : ((mapSet st.cache k { e with timestamp := nowGet }).map Prod.fst).Nodup := by
      rw [mapSet_keys, hhas1, if_pos rfl]
      exact hnodup
    have hj1 : j ∈ mapSet st.cache k { e with timestamp := nowGet } :=
      mem_mapSet_of_ne hj hjk _
    set R : CacheManager :=
      { st with cache := mapSet st.cache k { e with timestamp := nowGet },
                hits := st.hits + 1 } with hR
    simp only [CacheManager.set]
    split
    · have hpres := evictOldest_preserves_newer R k { e with timestamp := nowGet }
        (by rw [hR]; exact hk1) (by rw [hR]; exact hnodup1) j (by rw [hR]; exact hj1)
        hjk hjt
      show mapHas (mapSet R.evictOldest.cache newKey ⟨value, nowSet, model, len⟩) k = true
      rw [mapHas, mapGet_mapSet_ne _ _ _ _ (Ne.symm hkk'), hpres]
      rfl
    · show mapHas (mapSet R.cache newKey ⟨value, nowSet, model, len⟩) k = true
      rw [mapHas, mapGet_mapSet_ne _ _ _ _ (Ne.symm hkk'), hR]
      show (mapGet (mapSet st.cache k { e with timestamp := nowGet }) k).isSome = true
      rw [hk1]
      rfl

/-- Witness for C9: a two-entry cache at capacity.  Inserting key `"c"`
evicts exactly the oldest key `"a"`; reading `"b"` and then inserting `"c"`
keeps `"b"` present. -/
theorem lru_evicts_oldest_and_get_protects_witness :
    (CacheManager.set ⟨[("a", ⟨"va", 1, "m", 2⟩), ("b", ⟨"vb", 5, "m", 2⟩)], 2, 1000, 0, 0⟩
        10 "c" "vc" "m" 3).cache =
      mapDelete [("a", ⟨"va", 1, "m", 2⟩), ("b", ⟨"vb", 5, "m", 2⟩)] "a" ++
        [("c", ⟨"vc", 10, "m", 3⟩)] ∧
    mapHas ((CacheManager.get
        ⟨[("a", ⟨"va", 1, "m", 2⟩), ("b", ⟨"vb", 5, "m", 2⟩)], 2, 1000, 0, 0⟩ 10 "b").2.set
        11 "c" "vc" "m" 3).cache "b" = true := by
  constructor
  · exact lru_evicts_oldest_and_get_protects.1
      ⟨[("a", ⟨"va", 1, "m", 2⟩), ("b", ⟨"vb", 5, "m", 2⟩)], 2, 1000, 0, 0⟩
      10 "c" "vc" "m" 3 "a" ⟨"va", 1, "m", 2⟩
      (by decide) (by decide) (by decide) (by decide) (by decide) (by decide)
  · exact lru_evicts_oldest_and_get_protects.2
      ⟨[("a", ⟨"va", 1, "m", 2⟩), ("b", ⟨"vb", 5, "m", 2⟩)], 2, 1000, 0, 0⟩
      10 11 "b" "c" "vc" "m" 3 ⟨"vb", 5, "m", 2⟩ ("a", ⟨"va", 1, "m", 2⟩)
      (by decide) (by decide) (by decide) (by decide) (by decide) (by decide) (by decide)


/-! ### The token-overflow gate (claim C4) -/

theorem validateTokenCount_overflow (text model : String) (th : ℚ)
    (h : DEFAULT_TOKEN_LIMIT ≤ estimateTokens text) :
    (validateTokenCount text model th).isValid = false := by
  have hq : (100 : ℚ) ≤ (estimateTokens text : ℚ) / (DEFAULT_TOKEN_LIMIT : ℚ) * 100 := by
    rw [div_mul_eq_mul_div, le_div_iff₀ (by norm_num [DEFAULT_TOKEN_LIMIT] : (0 : ℚ) < (DEFAULT_TOKEN_LIMIT : ℚ))]
    have hc : ((DEFAULT_TOKEN_LIMIT : Nat) : ℚ) ≤ (estimateTokens text : ℚ) := by
      exact_mod_cast h
    nlinarith
  simp only [validateTokenCount]
  rw [if_pos hq]

theorem estimateTokens_lower (text : String)
    (h : (trimChars text.data).isEmpty = false) :
    (5 * text.data.countP isPunctChar + 9) / 10 ≤ estimateTokens text := by
  simp only [estimateTokens]
  rw [if_neg (by simp [h])]
  exact Nat.div_le_div_right (by omega)

theorem countP_replicate {α : Type} (p : α → Bool) (a : α) :
    ∀ n, (List.replicate n a).countP p = if p a then n else 0 := by
  intro n
  induction n with
  | zero => simp
  | succ n ih =>
    rw [List.replicate_succ, List.countP_cons, ih]
    by_cases hp : p a <;> simp [hp]

theorem mem_dropWhile_of_neg {p : Char → Bool} {c : Char} :
    ∀ {l : List Char}, c ∈ l → p c = false → c ∈ l.dropWhile p := by
  intro l
  induction l with
  | nil => intro hc _; simp at hc
  | cons a t ih =>
    intro hc hpc
    rw [List.dropWhile]
    cases hpa : p a with
    | true =>
      rcases List.mem_cons.1 hc with rfl | hc
      · rw [hpa] at hpc; cases hpc
      · simp only [if_pos rfl]
        exact ih hc hpc
    | false =>
      simp only [Bool.false_eq_true, if_false]
      exact hc

theorem trimChars_isEmpty_false {cs : List Char} {c : Char}
    (hc : c ∈ cs) (hns : isJsSpace c = false) : (trimChars cs).isEmpty = false := by
  have h1 : c ∈ cs.dropWhile isJsSpace := mem_dropWhile_of_neg hc hns
  have h2 : c ∈ (cs.dropWhile isJsSpace).reverse := List.mem_reverse.2 h1
  have h3 : c ∈ (cs.dropWhile isJsSpace).reverse.dropWhile isJsSpace :=
    mem_dropWhile_of_neg h2 hns
  rw [trimChars]
  cases hr : ((cs.dropWhile isJsSpace).reverse.dropWhile isJsSpace).reverse with
  | nil =>
    exfalso
    rw [List.reverse_eq_nil_iff] at hr
    rw [hr] at h3
    simp at h3
  | cons a t => rfl

theorem isPunct_not_space (c : Char) (h : isPunctChar c = true) : isJsSpace c = false := by
  simp only [isPunctChar, Bool.or_eq_true, beq_iff_eq] at h
  rcases h with ((((((((((((h | h) | h) | h) | h) | h) | h) | h) | h) | h) | h) | h) | h) | h <;>
    subst h <;> decide

theorem countP_str_append (p : Char → Bool) (a b : String) :
    (a ++ b).data.countP p = a.data.countP p + b.data.countP p := by
  rw [str_data_append, List.countP_append]

theorem countP_buildPrompt_ge (u : String) :
    u.data.countP isPunctChar ≤ (buildPrompt u none none none).data.countP isPunctChar := by
  simp only [buildPrompt, jsJoin, List.append_nil, List.nil_append, List.cons_append]
  simp only [countP_str_append]
  omega

/-- Claim C4: a request whose assembled prompt's estimated token count
reaches the fixed ceiling fails at the token gate: the handler returns the
overflow outcome, the external service is never invoked, and the session
state is untouched. -/
theorem token_overflow_never_calls_service (env : ChatRequestEnv) (now : Nat) (w : World)
    (hcmd : env.command = none)
    (hinput : (trimChars env.userInput.data).isEmpty = false)
    (hkey : env.apiKey.isSome = true)
    (hcancel : env.cancelAtStart = false)
    (hover : DEFAULT_TOKEN_LIMIT ≤ estimateTokens (buildPrompt env.userInput none none none)) :
    chatHandler env now w = ⟨w, .tokenOverflow, 0, []⟩ := by
  obtain ⟨key, hkeyeq⟩ := Option.isSome_iff_exists.1 hkey
  have hvalid : (validateTokenCount (buildPrompt env.userInput none none none)
      env.model (4 / 5 : ℚ)).isValid = false :=
    validateTokenCount_overflow _ _ _ hover
  simp [chatHandler, chatPhase1, hcmd, hinput, hkeyeq, hcancel, hvalid]

/-- Witness for C4: 200001 dots estimate ≥ 100001 tokens; the handler stops
at the gate without calling the service. -/
theorem token_overflow_never_calls_service_witness :
    chatHandler overflowEnv 0 emptyWorld = ⟨emptyWorld, .tokenOverflow, 0, []⟩ := by
  apply token_overflow_never_calls_service
  · rfl
  · exact trimChars_isEmpty_false
      (List.mem_replicate.2 ⟨by omega, rfl⟩) (by decide)
  · rfl
  · rfl
  · have hu : overflowEnv.userInput.data.countP isPunctChar = 200001 := by
      show (List.replicate 200001 '.').countP isPunctChar = 200001
      rw [countP_replicate, if_pos (by decide)]
    have h1 := countP_buildPrompt_ge overflowEnv.userInput
    rw [hu] at h1
    have h3 : (trimChars (buildPrompt overflowEnv.userInput none none none).data).isEmpty
        = false := by
      obtain ⟨a, ha, hpa⟩ := List.countP_pos_iff.1
        (show 0 < (buildPrompt overflowEnv.userInput none none none).data.countP isPunctChar
         from by omega)
      exact trimChars_isEmpty_false ha (isPunct_not_space a hpa)
    have h4 := estimateTokens_lower (buildPrompt overflowEnv.userInput none none none) h3
    have h5 : (5 * 200001 + 9) / 10 ≤
        (5 * (buildPrompt overflowEnv.userInput none none none).data.countP isPunctChar + 9)
          / 10 :=
      Nat.div_le_div_right (by omega)
    have h6 : DEFAULT_TOKEN_LIMIT ≤ (5 * 200001 + 9) / 10 := by norm_num [DEFAULT_TOKEN_LIMIT]
    omega


/-! ### Cancellation mid-stream (claim C1) and in-flight de-duplication (claim C2) -/

set_option maxRecDepth 200000 in
/-- Claim C1 (refuted — code bug): cancelling mid-stream after one of two
fragments was delivered does NOT discard the partial result: the handler
caches the trimmed partial text under the request's fingerprint and appends a
history record, contradicting the documented discard semantics. -/
theorem cancellation_caches_partial_and_records_history :
    (chatHandler cancelEnv 0 emptyWorld).outcome = .completed true ∧
    (chatHandler cancelEnv 0 emptyWorld).emitted = ["Hello "] ∧
    (chatHandler cancelEnv 0 emptyWorld).world.cache.cache.length = 1 ∧
    mapHas (chatHandler cancelEnv 0 emptyWorld).world.cache.cache
      (CacheManager.hash "add dark mode" "gemini-2.5-flash" "\x7b\"project\":null\x7d")
      = true ∧
    ((chatHandler cancelEnv 0 emptyWorld).world.cache.cache.map
      (fun p => p.2.value)) = ["Hello"] ∧
    ((chatHandler cancelEnv 0 emptyWorld).world.history.map
      (fun h => (h.originalPrompt, h.refinedPrompt))) = [("add dark mode", "Hello ")] := by
  decide

set_option maxRecDepth 200000 in
/-- Claim C2 (refuted — code bug): two back-to-back invocations with the
identical fingerprint, the second starting before the first resolves, BOTH
call the external service (one stream call each, two cache misses), and the
in-flight request map — whose helpers exist in the client module — is never
consulted or populated: it stays empty throughout. -/
theorem back_to_back_requests_both_call_service :
    (runTwoBackToBack dedupEnv dedupEnv 0 0 emptyWorld).1.serviceCalls = 1 ∧
    (runTwoBackToBack dedupEnv dedupEnv 0 0 emptyWorld).2.serviceCalls = 1 ∧
    (runTwoBackToBack dedupEnv dedupEnv 0 0 emptyWorld).1.outcome = .completed false ∧
    (runTwoBackToBack dedupEnv dedupEnv 0 0 emptyWorld).2.outcome = .completed false ∧
    (runTwoBackToBack dedupEnv dedupEnv 0 0 emptyWorld).2.world.cache.misses = 2 ∧
    (runTwoBackToBack dedupEnv dedupEnv 0 0 emptyWorld).2.world.inFlight = [] ∧
    getInFlightRequest (runTwoBackToBack dedupEnv dedupEnv 0 0 emptyWorld).2.world.inFlight
      (CacheManager.hash "add dark mode" "gemini-2.5-flash" "\x7b\"project\":null\x7d")
      = none := by
  decide

end Refinery
